import Mathlib

/-!
Shallow embedding of the LIT-Protocol/bls_dkg DKG core (src/key_gen/mod.rs and
src/key_gen/sharexorname.rs) together with proofs about the embedded code.

Modelling conventions:
* `u64`/`usize` values are `Nat`; participant identities (`PublicId`, `XorName`)
  are `Nat` (an ordered, decidable identifier space).
* `Vec<u8>` byte strings are `List Nat`.
* `BTreeSet` is `Finset Nat` (iteration, where it matters, is in ascending
  order via `ascList`); `BTreeMap` is an association list with unique keys
  in reachable states, looked up by first match and updated in place.
* External collaborators (the `threshold_crypto` curve types, `bincode`
  serialization, and the `Encryptor`, whose source file is not part of the
  repository snapshot) are abstracted as parameters bundled in `ExtOps`;
  theorems quantify over every instantiation.  Encryption is fallible, as the
  spec's interface states; serialization of always-serializable values is
  modelled as total.
-/

namespace BlsDkg

/-- Byte strings (`Vec<u8>`). -/
abbrev Bytes := List Nat

deriving instance DecidableEq for Except

/-- Ascending enumeration of a `Finset Nat`, modelling `BTreeSet` iteration
order.  Implemented with `insertionSort` so that it reduces inside the
kernel (unlike `Finset.sort`, which relies on well-founded recursion). -/
def ascList (s : Finset Nat) : List Nat :=
  Quot.liftOn s.val (fun l => l.insertionSort (· ≤ ·)) (fun a b hab =>
    List.eq_of_perm_of_sorted
      ((List.perm_insertionSort _ a).trans ((List.Perm.trans hab
        (List.perm_insertionSort _ b).symm)))
      (List.sorted_insertionSort _ a) (List.sorted_insertionSort _ b))

/-- Lookup by first matching key, modelling `BTreeMap::get` on a map whose
keys are unique. -/
def alLookup {κ α : Type} [DecidableEq κ] : List (κ × α) → κ → Option α
  | [], _ => none
  | e :: t, k => if e.1 = k then some e.2 else alLookup t k

/-- Replace the value at the first occurrence of a key, or append the binding;
models `BTreeMap` updates through `get_mut` and `insert`. -/
def alInsert {κ α : Type} [DecidableEq κ] (k : κ) (v : α) : List (κ × α) → List (κ × α)
  | [] => [(k, v)]
  | e :: t => if e.1 = k then (k, v) :: t else e :: alInsert k v t

/-- Accumulator for `Initialization` messages
(`InitializationAccumulator` in src/key_gen/mod.rs). -/
structure InitializationAccumulator where
  senders : Finset Nat
  initializations : List ((Nat × Nat × Finset Nat) × Nat)
  deriving DecidableEq

/-- Embeds `InitializationAccumulator::add_initialization`: the sender set is
updated first; a duplicate sender is ignored; otherwise the count of the
`(m, n, member_list)` triple is incremented when present (returning the triple
when the new count is at least `m`) or created at `1` (returning `none`). -/
def addInitialization (acc : InitializationAccumulator) (m n sender : Nat)
    (memberList : Finset Nat) :
    InitializationAccumulator × Option (Nat × Nat × Finset Nat) :=
  if sender ∈ acc.senders then (acc, none)
  else
    let acc1 : InitializationAccumulator :=
      { acc with senders := insert sender acc.senders }
    let paras : Nat × Nat × Finset Nat := (m, n, memberList)
    match alLookup acc1.initializations paras with
    | some c =>
        let acc2 : InitializationAccumulator :=
          { acc1 with initializations := alInsert paras (c + 1) acc1.initializations }
        if m ≤ c + 1 then (acc2, some paras) else (acc2, none)
    | none =>
        ({ acc1 with initializations := acc1.initializations ++ [(paras, 1)] }, none)

/-- Accumulator for `Complaint` messages
(`ComplaintsAccumulator` in src/key_gen/mod.rs). -/
structure ComplaintsAccumulator where
  pubKeys : Finset Nat
  threshold : Nat
  complaints : List (Nat × Finset Nat)
  deriving DecidableEq

/-- Embeds `ComplaintsAccumulator::add_complaint`.  Note the vacant branch of
the Rust `match` builds a fresh set containing `target_id` (the local binding
named `targets`), not `sender_id`. -/
def addComplaint (acc : ComplaintsAccumulator) (senderId targetId : Nat)
    (_msg : Bytes) : ComplaintsAccumulator :=
  if senderId ∉ acc.pubKeys ∨ targetId ∉ acc.pubKeys then acc
  else
    match alLookup acc.complaints targetId with
    | some accusers =>
        { acc with complaints := alInsert targetId (insert senderId accusers) acc.complaints }
    | none =>
        { acc with complaints := acc.complaints ++ [(targetId, {targetId})] }

/-- One step of the target sweep inside
`ComplaintsAccumulator::finalize_complaining_phase`: a target whose accuser
set is larger than `n - threshold` is marked invalid and every member that is
not among its accusers has its missed-accusation counter bumped.  The
`BTreeMap<P, usize>` of counters is modelled by its lookup function. -/
def fcStep (pk : Finset Nat) (thr : Nat) :
    Finset Nat × (Nat → Nat) → Nat × Finset Nat → Finset Nat × (Nat → Nat) :=
  fun st e =>
    if pk.card - thr < e.2.card then
      (insert e.1 st.1,
       fun p => if p ∈ pk ∧ p ∉ e.2 then st.2 p + 1 else st.2 p)
    else st

/-- Embeds `ComplaintsAccumulator::finalize_complaining_phase`: sweep the
complaint entries accumulating invalid targets and missed-accusation counts,
then also mark every member whose count exceeds `n / 2`. -/
def finalizeComplaints (acc : ComplaintsAccumulator) : Finset Nat :=
  let r := acc.complaints.foldl (fcStep acc.pubKeys acc.threshold) (∅, fun _ => 0)
  (ascList acc.pubKeys).foldl
    (fun inv p => if acc.pubKeys.card / 2 < r.2 p then insert p inv else inv) r.1

/-- Lexicographic order on `(XorName, u64)` pairs, the derived `Ord` used by
Rust's `Vec::<(XorName, u64)>::sort`. -/
def pairLe (a b : Nat × Nat) : Prop :=
  a.1 < b.1 ∨ (a.1 = b.1 ∧ a.2 ≤ b.2)

instance : DecidableRel pairLe := fun a b => by
  unfold pairLe; infer_instance

/-- Descending order on shares, the comparator `|a, b| b.cmp(a)` used to keep
the `available` pool sorted with the smallest share last. -/
def geShare (a b : Nat) : Prop := b ≤ a

instance : DecidableRel geShare := fun a b => by
  unfold geShare; infer_instance

/-- The roster (`ShareXorName` in src/key_gen/sharexorname.rs): participant
names paired positionally with stable shares, plus the pool of freed shares
kept in decreasing order, plus an opaque epoch id. -/
structure ShareXorName where
  xornames : List Nat
  shares : List Nat
  available : List Nat
  epochid : Nat
  deriving DecidableEq

namespace ShareXorName

/-- Embeds `ShareXorName::from_xornames`: sort the names and assign shares
`0 .. len-1` positionally, with an empty pool. -/
def from_xornames (names : List Nat) : ShareXorName :=
  { xornames := names.insertionSort (· ≤ ·)
    shares := (List.range names.length).map (fun x => x)
    available := []
    epochid := 0 }

/-- Embeds the private `ShareXorName::sort`: zip the two vectors, sort the
pairs lexicographically, and unzip. -/
def sortPairs (s : ShareXorName) : ShareXorName :=
  let sorted := (s.xornames.zip s.shares).insertionSort pairLe
  { s with xornames := sorted.map Prod.fst, shares := sorted.map Prod.snd }

/-- Embeds `ShareXorName::get_share`: position of the first matching name,
then the share at that position. -/
def get_share (s : ShareXorName) (x : Nat) : Option Nat :=
  match s.xornames.findIdx? (fun name => name = x) with
  | some p => some (s.shares.getD p 0)
  | none => none

/-- Embeds `ShareXorName::get_xorname`. -/
def get_xorname (s : ShareXorName) (share : Nat) : Option Nat :=
  match s.shares.findIdx? (fun ashare => ashare = share) with
  | some p => some (s.xornames.getD p 0)
  | none => none

/-- Embeds `ShareXorName::remove_xorname`: when the name is present, remove
its entry from both vectors and push the freed share into the pool; the pool
is re-sorted in decreasing order in either case. -/
def remove_xorname (s : ShareXorName) (x : Nat) : ShareXorName :=
  let s1 :=
    match s.xornames.findIdx? (fun name => name = x) with
    | some p =>
        { s with
          xornames := s.xornames.eraseIdx p
          shares := s.shares.eraseIdx p
          available := s.available ++ [s.shares.getD p 0] }
    | none => s
  { s1 with available := s1.available.insertionSort geShare }

/-- Embeds `ShareXorName::remove_xornames`: iterate over a clone of the name
vector with an offset tracking how many entries were already removed from the
live vectors; the pool is re-sorted in decreasing order at the end. -/
def remove_xornames (s : ShareXorName) (remNames : List Nat) : ShareXorName :=
  let s1 :=
    (s.xornames.enum.foldl
      (fun (st : ShareXorName × Nat) pe =>
        if pe.2 ∈ remNames then
          ({ st.1 with
             xornames := st.1.xornames.eraseIdx (pe.1 - st.2)
             shares := st.1.shares.eraseIdx (pe.1 - st.2)
             available := st.1.available ++ [st.1.shares.getD (pe.1 - st.2) 0] },
           st.2 + 1)
        else st)
      (s, 0)).1
  { s1 with available := s1.available.insertionSort geShare }

/-- Embeds the private `ShareXorName::add_xorname`: pop the smallest freed
share (the last of the decreasing pool) when one exists, otherwise take the
current length as the next fresh share; then re-sort the paired vectors. -/
def add_xorname (s : ShareXorName) (x : Nat) : ShareXorName :=
  match s.available.getLast? with
  | some share =>
      sortPairs
        { s with
          xornames := s.xornames ++ [x]
          shares := s.shares ++ [share]
          available := s.available.dropLast }
  | none =>
      let share := s.xornames.length
      sortPairs
        { s with
          xornames := s.xornames ++ [x]
          shares := s.shares ++ [share] }

/-- Embeds `ShareXorName::add_xornames`: the fresh-share counter is fixed to
the pre-batch length before the loop, while each iteration either pops a
freed share or allocates from that counter; a single sort runs at the end. -/
def add_xornames (s : ShareXorName) (addNames : List Nat) : ShareXorName :=
  let r := addNames.foldl
    (fun (st : ShareXorName × Nat) x =>
      match st.1.available.getLast? with
      | some share =>
          ({ st.1 with
             xornames := st.1.xornames ++ [x]
             shares := st.1.shares ++ [share]
             available := st.1.available.dropLast },
           st.2)
      | none =>
          ({ st.1 with
             xornames := st.1.xornames ++ [x]
             shares := st.1.shares ++ [st.2] },
           st.2 + 1))
    (s, s.xornames.length)
  sortPairs r.1

end ShareXorName

/-- The DKG phases (`Phase` in src/key_gen/mod.rs). -/
inductive Phase where
  | initialization
  | contribution
  | complaining
  | justification
  | commitment
  | finalization
  deriving DecidableEq

/-- Local errors surfaced to the caller (`Error` in src/key_gen/mod.rs).
String payloads carry no control flow and are dropped. -/
inductive Error where
  | unknown
  | unknownSender
  | serialization
  | quicP2P
  | encryption
  | tooManyNonVoters (nonVoters : Finset Nat)
  | unexpectedPhase (expected actual : Phase)
  deriving DecidableEq

/-- Faults attributable to a `Part` (`PartFault`). -/
inductive PartFault where
  | rowCount
  | multipleParts
  | decryptRow
  | deserializeRow
  | rowAcknowledgment
  deriving DecidableEq

/-- Faults attributable to an `Acknowledgment` (`AcknowledgmentFault`). -/
inductive AcknowledgmentFault where
  | valueCount
  | missingPart
  | decryptValue
  | deserializeValue
  | valueAcknowledgment
  deriving DecidableEq

/-- A proposer's contribution (`Part`), with the commitment type abstract. -/
structure Part (C : Type) where
  receiver : Nat
  commitment : C
  serRow : Bytes
  encRows : List Bytes
  deriving DecidableEq

/-- An acknowledgment tuple
(`Acknowledgment(proposer, receiver, ser_val, values)`). -/
structure Acknowledgment where
  proposerIndex : Nat
  receiverIndex : Nat
  serVal : Bytes
  values : List Bytes
  deriving DecidableEq

/-- Per-proposer bookkeeping (`ProposalState`); `F` abstracts `Fr`. -/
structure ProposalState (C F : Type) where
  commitment : C
  values : List (Nat × F)
  encValues : List Bytes
  acks : Finset Nat
  deriving DecidableEq

/-- Embeds `ProposalState::new`. -/
def ProposalState.new {C F : Type} (commitment : C) : ProposalState C F :=
  { commitment := commitment, values := [], encValues := [], acks := ∅ }

/-- Embeds `ProposalState::is_complete`. -/
def ProposalState.is_complete {C F : Type} (p : ProposalState C F) (threshold : Nat) : Prop :=
  threshold < p.acks.card

instance {C F : Type} (p : ProposalState C F) (t : Nat) :
    Decidable (p.is_complete t) := by
  unfold ProposalState.is_complete; infer_instance

/-- The DKG messages as constructed in src/key_gen/mod.rs (generic over the
participant-id type, here `Nat`, and the commitment type `C`). -/
inductive Message (C : Type) where
  | initialization (keyGenId m n : Nat) (memberList : Finset Nat)
  | proposal (keyGenId : Nat) (part : Part C)
  | complaint (keyGenId target : Nat) (msg : Bytes)
  | justification (keyGenId : Nat) (keysMap : List (Nat × Bytes))
  | acknowledgment (keyGenId : Nat) (ack : Acknowledgment)
  deriving DecidableEq

/-- The `KeyGen` state (src/key_gen/mod.rs).  The `Encryptor` collaborator is
kept outside the state: its source file is absent from the snapshot and the
modelled fragment never mutates it (`ExtOps` carries its operations). -/
structure KeyGen (C F : Type) where
  ourId : Nat
  ourIndex : Nat
  pubKeys : Finset Nat
  parts : List (Nat × ProposalState C F)
  threshold : Nat
  phase : Phase
  initAcc : InitializationAccumulator
  complaintsAcc : ComplaintsAccumulator
  pendingComplainMessages : List (Message C)
  deriving DecidableEq

/-- Operations of the external collaborators, abstracted: `RC` is a univariate
commitment, `G` a group element, `Row` a univariate polynomial, `BP` a sampled
bivariate polynomial (the rng outcome is passed in by the caller). -/
structure ExtOps (C RC F G Row BP : Type) where
  commitmentRow : C → Nat → RC
  commitmentEval : C → Nat → Nat → G
  rowCommitment : Row → RC
  rowEvaluate : Row → Nat → F
  deserializeRow : Bytes → Option Row
  deserializeVal : Bytes → Option F
  serializeRow : Row → Bytes
  serializeVal : F → Bytes
  serializeMsg : Message C → Bytes
  g1Mul : F → G
  encrypt : Nat → Bytes → Option Bytes
  keysMap : List (Nat × Bytes)
  bpRow : BP → Nat → Row
  bpCommitment : BP → C

namespace KeyGen

variable {C RC F G Row BP : Type} [DecidableEq C] [DecidableEq RC] [DecidableEq G]

/-- Iteration order of the sorted member set (`pub_keys.iter()`). -/
def members (σ : KeyGen C F) : List Nat :=
  ascList σ.pubKeys

/-- Embeds `KeyGen::node_index`: position of the id in the sorted set. -/
def nodeIndex (σ : KeyGen C F) (nodeId : Nat) : Option Nat :=
  (members σ).findIdx? (fun p => p = nodeId)

/-- Embeds `KeyGen::node_id_from_index`. -/
def nodeIdFromIndex (σ : KeyGen C F) (nodeIdx : Nat) : Option Nat :=
  (members σ).get? nodeIdx

/-- Embeds `KeyGen::all_contribution_received`. -/
def allContributionReceived (σ : KeyGen C F) : Prop :=
  σ.pubKeys.card = σ.parts.length ∧
    ∀ e ∈ σ.parts, (e : Nat × ProposalState C F).2.acks.card = σ.pubKeys.card

instance (σ : KeyGen C F) : Decidable (allContributionReceived σ) := by
  unfold allContributionReceived; infer_instance

/-- Embeds `KeyGen::complete_parts_count`. -/
def completePartsCount (σ : KeyGen C F) : Nat :=
  (σ.parts.filter (fun e => decide (e.2.is_complete σ.threshold))).length

/-- Embeds `KeyGen::is_ready`. -/
def isReady (σ : KeyGen C F) : Prop :=
  σ.threshold ≤ completePartsCount σ

instance (σ : KeyGen C F) : Decidable (isReady σ) := by
  unfold isReady; infer_instance

/-- Embeds `KeyGen::non_contributors`: sweep the members; one with no
recorded part is a non-contributor; one whose part lacks a self-ack bumps a
missing counter (modelled by its lookup function) and is flagged when the
counter exceeds `n / 2`. -/
def nonContributors (σ : KeyGen C F) : Finset Nat × Finset Nat :=
  let r := (members σ).enum.foldl
    (fun (st : Finset Nat × Finset Nat × (Nat → Nat)) e =>
      match alLookup σ.parts e.1 with
      | some ps =>
          if e.1 ∉ ps.acks then
            let times := st.2.2 e.1 + 1
            let counts := fun i => if i = e.1 then times else st.2.2 i
            if σ.pubKeys.card / 2 < times then
              (insert e.1 st.1, insert e.2 st.2.1, counts)
            else
              (st.1, st.2.1, counts)
          else st
      | none => (insert e.1 st.1, insert e.2 st.2.1, st.2.2))
    (∅, ∅, fun _ => 0)
  (r.1, r.2.1)

/-- The byte constant `b"Not contributed"` (ASCII codes). -/
def notContributedBytes : Bytes :=
  [78, 111, 116, 32, 99, 111, 110, 116, 114, 105, 98, 117, 116, 101, 100]

/-- Embeds `KeyGen::finalize_contributing_phase`: move to `Complaining`,
enqueue a complaint per non-contributor, jump straight to `Finalization` when
nothing is pending and enough parts are complete, and drain the queue. -/
def finalizeContributingPhase (σ : KeyGen C F) :
    KeyGen C F × Except Error (List (Message C)) :=
  let σ1 : KeyGen C F := { σ with phase := Phase.complaining }
  let σ2 : KeyGen C F :=
    { σ1 with
      pendingComplainMessages :=
        σ1.pendingComplainMessages ++
          (ascList (nonContributors σ1).1).map
            (fun t => Message.complaint σ1.ourIndex t notContributedBytes) }
  let σ3 : KeyGen C F :=
    if σ2.pendingComplainMessages = [] ∧ isReady σ2 then
      { σ2 with phase := Phase.finalization }
    else σ2
  ({ σ3 with pendingComplainMessages := [] }, Except.ok σ3.pendingComplainMessages)

/-- Serialize-and-encrypt of one row per member, as in the `rows` collection
inside `handle_initialization` and `finalize_complaining_phase`; any
encryption failure aborts the whole collection. -/
def collectEncRows (ext : ExtOps C RC F G Row BP) (bp : BP) :
    List (Nat × Nat) → Option (List Bytes)
  | [] => some []
  | ipk :: t =>
      match ext.encrypt ipk.2 (ext.serializeRow (ext.bpRow bp (ipk.1 + 1))) with
      | none => none
      | some e => (collectEncRows ext bp t).map (fun rest => e :: rest)

/-- The `Proposal` fan-out every participant receives after a fresh bivariate
polynomial was sampled (shared by `handle_initialization` and
`finalize_complaining_phase`); `base` carries messages already queued. -/
def emitProposals (ext : ExtOps C RC F G Row BP) (bp : BP) (σ : KeyGen C F)
    (base : List (Message C)) : KeyGen C F × Except Error (List (Message C)) :=
  match collectEncRows ext bp (members σ).enum with
  | none => (σ, Except.error Error.encryption)
  | some rows =>
      (σ, Except.ok (base ++ (members σ).enum.map (fun ipk =>
        Message.proposal σ.ourIndex
          { receiver := ipk.1
            commitment := ext.bpCommitment bp
            serRow := ext.serializeRow (ext.bpRow bp (ipk.1 + 1))
            encRows := rows })))

/-- Embeds `KeyGen::handle_initialization`: phase guard, feed the
accumulator, and on quorum adopt `(m, members)`, enter `Contribution`, sample
a polynomial (`bp`) and emit the `Proposal` fan-out. -/
def handleInitialization (ext : ExtOps C RC F G Row BP) (bp : BP) (σ : KeyGen C F)
    (m n sender : Nat) (memberList : Finset Nat) :
    KeyGen C F × Except Error (List (Message C)) :=
  if σ.phase ≠ Phase.initialization then
    (σ, Except.error (Error.unexpectedPhase Phase.initialization σ.phase))
  else
    match addInitialization σ.initAcc m n sender memberList with
    | (acc1, none) => ({ σ with initAcc := acc1 }, Except.ok [])
    | (acc1, some paras) =>
        let σ1 : KeyGen C F :=
          { σ with
            initAcc := acc1
            threshold := paras.1
            pubKeys := paras.2.2
            phase := Phase.contribution }
        emitProposals ext bp σ1 []

/-- Embeds `KeyGen::handle_part_or_fault`: row-count check, receiver check,
duplicate/conflict check against the recorded commitment, then insert a fresh
`ProposalState` before deserializing and verifying the row. -/
def handlePartOrFault (ext : ExtOps C RC F G Row BP) (σ : KeyGen C F)
    (senderIndex : Nat) (part : Part C) :
    KeyGen C F × Except PartFault (Option Row) :=
  if part.encRows.length ≠ σ.pubKeys.card then
    (σ, Except.error PartFault.rowCount)
  else if part.receiver ≠ σ.ourIndex then
    (σ, Except.ok none)
  else
    match alLookup σ.parts senderIndex with
    | some st =>
        if st.commitment ≠ part.commitment then
          (σ, Except.error PartFault.multipleParts)
        else (σ, Except.ok none)
    | none =>
        let ackRow := ext.commitmentRow part.commitment (σ.ourIndex + 1)
        let σ1 : KeyGen C F :=
          { σ with parts := alInsert senderIndex (ProposalState.new part.commitment) σ.parts }
        match ext.deserializeRow part.serRow with
        | none => (σ1, Except.error PartFault.deserializeRow)
        | some row =>
            if ext.rowCommitment row ≠ ackRow then
              (σ1, Except.error PartFault.rowAcknowledgment)
            else (σ1, Except.ok (some row))

/-- The per-member evaluate/serialize/encrypt loop of `handle_proposal`;
returns the plain and encrypted serialized values, or `none` on an
encryption failure. -/
def collectAckValues (ext : ExtOps C RC F G Row BP) (row : Row) :
    List (Nat × Nat) → Option (List Bytes × List Bytes)
  | [] => some ([], [])
  | ipk :: t =>
      let serVal := ext.serializeVal (ext.rowEvaluate row (ipk.1 + 1))
      match ext.encrypt ipk.2 serVal with
      | none => none
      | some e =>
          match collectAckValues ext row t with
          | none => none
          | some vs => some (serVal :: vs.1, e :: vs.2)

/-- Embeds `KeyGen::handle_proposal`: phase guard, delegate to
`handle_part_or_fault`; a fault queues a pending `Complaint` against the
sender; a valid row produces one `Acknowledgment` per member. -/
def handleProposal (ext : ExtOps C RC F G Row BP) (σ : KeyGen C F)
    (senderIndex : Nat) (part : Part C) :
    KeyGen C F × Except Error (List (Message C)) :=
  if ¬(σ.phase = Phase.contribution ∨ σ.phase = Phase.commitment) then
    (σ, Except.error (Error.unexpectedPhase Phase.contribution σ.phase))
  else
    match handlePartOrFault ext σ senderIndex part with
    | (σ1, Except.ok none) => (σ1, Except.ok [])
    | (σ1, Except.error _) =>
        let invalidContribute := ext.serializeMsg (Message.proposal senderIndex part)
        ({ σ1 with
           pendingComplainMessages :=
             σ1.pendingComplainMessages ++
               [Message.complaint σ1.ourIndex senderIndex invalidContribute] },
         Except.ok [])
    | (σ1, Except.ok (some row)) =>
        match collectAckValues ext row (members σ1).enum with
        | none => (σ1, Except.error Error.encryption)
        | some vs =>
            (σ1, Except.ok ((members σ1).enum.map (fun ipk =>
              Message.acknowledgment σ1.ourIndex
                { proposerIndex := senderIndex
                  receiverIndex := ipk.1
                  serVal := vs.1.getD ipk.1 []
                  values := vs.2 })))

/-- Embeds `KeyGen::handle_ack_or_fault`: value-count check, receiver check,
require the proposer's part, record the sender's ack (duplicates are no-ops),
then deserialize and verify the value against the commitment, record it, and
store the carried encrypted values on the sender's own part. -/
def handleAckOrFault (ext : ExtOps C RC F G Row BP) (σ : KeyGen C F)
    (senderIndex : Nat) (a : Acknowledgment) :
    KeyGen C F × Except AcknowledgmentFault Unit :=
  if a.values.length ≠ σ.pubKeys.card then
    (σ, Except.error AcknowledgmentFault.valueCount)
  else if a.receiverIndex ≠ σ.ourIndex then
    (σ, Except.ok ())
  else
    match alLookup σ.parts a.proposerIndex with
    | none => (σ, Except.error AcknowledgmentFault.missingPart)
    | some part =>
        if senderIndex ∈ part.acks then (σ, Except.ok ())
        else
          let part1 := { part with acks := insert senderIndex part.acks }
          let σ1 : KeyGen C F := { σ with parts := alInsert a.proposerIndex part1 σ.parts }
          match ext.deserializeVal a.serVal with
          | none => (σ1, Except.error AcknowledgmentFault.deserializeValue)
          | some val =>
              if ext.commitmentEval part.commitment (σ.ourIndex + 1) (senderIndex + 1) ≠
                  ext.g1Mul val then
                (σ1, Except.error AcknowledgmentFault.valueAcknowledgment)
              else
                let part2 := { part1 with values := alInsert (senderIndex + 1) val part1.values }
                let σ2 : KeyGen C F := { σ with parts := alInsert a.proposerIndex part2 σ.parts }
                match alLookup σ2.parts senderIndex with
                | none => (σ2, Except.error AcknowledgmentFault.missingPart)
                | some sp =>
                    ({ σ2 with
                       parts := alInsert senderIndex { sp with encValues := a.values } σ2.parts },
                     Except.ok ())

/-- Embeds `KeyGen::handle_ack`: phase guard, delegate to
`handle_ack_or_fault`; on success check whether every contribution arrived
and close the round; on fault queue a pending `Complaint`. -/
def handleAck (ext : ExtOps C RC F G Row BP) (σ : KeyGen C F)
    (senderIndex : Nat) (a : Acknowledgment) :
    KeyGen C F × Except Error (List (Message C)) :=
  if ¬(σ.phase = Phase.contribution ∨ σ.phase = Phase.commitment) then
    (σ, Except.error (Error.unexpectedPhase Phase.contribution σ.phase))
  else
    match handleAckOrFault ext σ senderIndex a with
    | (σ1, Except.ok ()) =>
        if allContributionReceived σ1 then
          if σ1.phase = Phase.commitment then
            ({ σ1 with phase := Phase.finalization }, Except.ok [])
          else finalizeContributingPhase σ1
        else (σ1, Except.ok [])
    | (σ1, Except.error _) =>
        let invalidAck := ext.serializeMsg (Message.acknowledgment senderIndex a)
        ({ σ1 with
           pendingComplainMessages :=
             σ1.pendingComplainMessages ++
               [Message.complaint σ1.ourIndex senderIndex invalidAck] },
         Except.ok [])

/-- Embeds `KeyGen::handle_complaint`: phase guard, resolve the sender
(`UnknownSender` when absent) and the target (`Unknown` when absent), and
feed the accumulator. -/
def handleComplaint (σ : KeyGen C F) (senderIndex targetIndex : Nat)
    (invalidMsg : Bytes) : KeyGen C F × Except Error (List (Message C)) :=
  if σ.phase ≠ Phase.complaining then
    (σ, Except.error (Error.unexpectedPhase Phase.complaining σ.phase))
  else
    match nodeIdFromIndex σ senderIndex with
    | none => (σ, Except.error Error.unknownSender)
    | some senderId =>
        match nodeIdFromIndex σ targetIndex with
        | none => (σ, Except.error Error.unknown)
        | some targetId =>
            ({ σ with complaintsAcc := addComplaint σ.complaintsAcc senderId targetId invalidMsg },
             Except.ok [])

/-- Embeds `KeyGen::handle_justification`: the handler is a stub that accepts
the message in every phase and does nothing. -/
def handleJustification (σ : KeyGen C F) (_senderIndex : Nat)
    (_keysMap : List (Nat × Bytes)) : KeyGen C F × Except Error (List (Message C)) :=
  (σ, Except.ok [])

/-- Embeds `KeyGen::finalize_complaining_phase`: compute the faulty set, fail
with `TooManyNonVoters` when it is too large; otherwise emit a
`Justification` when we are in it, remove the faulty members (failing with
`Unknown` when our own index can no longer be resolved), or jump straight to
`Finalization` when nothing failed and enough parts are complete; otherwise
enter `Commitment`, clear the parts, and emit a fresh `Proposal` fan-out. -/
def finalizeComplainingPhase (ext : ExtOps C RC F G Row BP) (bp : BP)
    (σ : KeyGen C F) : KeyGen C F × Except Error (List (Message C)) :=
  let failings := finalizeComplaints σ.complaintsAcc
  if σ.pubKeys.card - σ.threshold ≤ failings.card then
    (σ, Except.error (Error.tooManyNonVoters
      (((ascList failings).filterMap (fun pk => nodeIndex σ pk)).foldr insert ∅)))
  else
    let base : List (Message C) :=
      if σ.ourId ∈ failings then [Message.justification σ.ourIndex ext.keysMap] else []
    if failings ≠ ∅ then
      let σ1 : KeyGen C F := { σ with pubKeys := σ.pubKeys \ failings }
      match nodeIndex σ1 σ.ourId with
      | none => (σ1, Except.error Error.unknown)
      | some i =>
          let σ2 : KeyGen C F :=
            { σ1 with ourIndex := i, phase := Phase.commitment, parts := [] }
          emitProposals ext bp σ2 base
    else if isReady σ then
      ({ σ with phase := Phase.finalization }, Except.ok [])
    else
      let σ2 : KeyGen C F := { σ with phase := Phase.commitment, parts := [] }
      emitProposals ext bp σ2 base

/-- Embeds `KeyGen::timed_phase_transition`. -/
def timedPhaseTransition (ext : ExtOps C RC F G Row BP) (bp : BP)
    (σ : KeyGen C F) : KeyGen C F × Except Error (List (Message C)) :=
  match σ.phase with
  | Phase.contribution => finalizeContributingPhase σ
  | Phase.complaining => finalizeComplainingPhase ext bp σ
  | Phase.initialization =>
      (σ, Except.error (Error.unexpectedPhase Phase.contribution σ.phase))
  | Phase.commitment =>
      (σ, Except.error (Error.unexpectedPhase Phase.complaining σ.phase))
  | Phase.justification =>
      (σ, Except.error (Error.unexpectedPhase Phase.complaining σ.phase))
  | Phase.finalization => (σ, Except.ok [])

/-- Embeds `KeyGen::handle_message`: dispatch on the message variant. -/
def handleMessage (ext : ExtOps C RC F G Row BP) (bp : BP) (σ : KeyGen C F)
    (msg : Message C) : KeyGen C F × Except Error (List (Message C)) :=
  match msg with
  | Message.initialization keyGenId m n memberList =>
      handleInitialization ext bp σ m n keyGenId memberList
  | Message.proposal keyGenId part => handleProposal ext σ keyGenId part
  | Message.complaint keyGenId target msg => handleComplaint σ keyGenId target msg
  | Message.justification keyGenId keysMap => handleJustification σ keyGenId keysMap
  | Message.acknowledgment keyGenId ack => handleAck ext σ keyGenId ack

/-- Embeds `KeyGen::initialize`: fail with `Unknown` when the member set is
smaller than the threshold or the caller is not a member; otherwise return a
fresh instance in `Initialization` together with the `Initialization`
announcement. -/
def initializeDkg (C F : Type) [DecidableEq C] [DecidableEq F]
    (ourId threshold : Nat) (pubKeys : Finset Nat) :
    Except Error (KeyGen C F × Message C) :=
  if pubKeys.card < threshold then Except.error Error.unknown
  else
    match (ascList pubKeys).findIdx? (fun p => p = ourId) with
    | none => Except.error Error.unknown
    | some ourIndex =>
        Except.ok
          ({ ourId := ourId
             ourIndex := ourIndex
             pubKeys := pubKeys
             parts := []
             threshold := threshold
             phase := Phase.initialization
             initAcc := { senders := ∅, initializations := [] }
             complaintsAcc := { pubKeys := pubKeys, threshold := threshold, complaints := [] }
             pendingComplainMessages := [] },
           Message.initialization ourIndex threshold pubKeys.card pubKeys)

end KeyGen

/-- Count recorded for a triple in the initialization accumulator (zero when
the triple is absent). -/
def initCount (acc : InitializationAccumulator) (paras : Nat × Nat × Finset Nat) : Nat :=
  ((alLookup acc.initializations paras).getD 0)

/-- The share that the next `add_xorname` will hand out: the last entry of the
decreasing pool when one exists, the current length otherwise (a derived
observer used to state roster properties). -/
def ShareXorName.popShare (s : ShareXorName) : Nat :=
  s.available.getLast?.getD s.xornames.length

/-- A trivial instantiation of the abstract external operations (all checks
pass, encryption never fails), used to evaluate the handlers on concrete
states. -/
def ext0 : ExtOps Nat Nat Nat Nat Nat Nat :=
  { commitmentRow := fun _ _ => 0
    commitmentEval := fun _ _ _ => 0
    rowCommitment := fun _ => 0
    rowEvaluate := fun _ _ => 0
    deserializeRow := fun _ => some 0
    deserializeVal := fun _ => some 0
    serializeRow := fun _ => []
    serializeVal := fun _ => []
    serializeMsg := fun _ => []
    g1Mul := fun _ => 0
    encrypt := fun _ b => some b
    keysMap := []
    bpRow := fun _ _ => 0
    bpCommitment := fun _ => 0 }

/-- Like `ext0` but value deserialization always fails, exercising the
`DeserializeValue` fault path. -/
def extNoVal : ExtOps Nat Nat Nat Nat Nat Nat :=
  { ext0 with deserializeVal := fun _ => none }

/-- A two-member `KeyGen` state in a chosen phase with empty accumulators,
used as a concrete evaluation point. -/
def kgFix (ph : Phase) : KeyGen Nat Nat :=
  { ourId := 0
    ourIndex := 0
    pubKeys := {0, 1}
    parts := []
    threshold := 1
    phase := ph
    initAcc := { senders := ∅, initializations := [] }
    complaintsAcc := { pubKeys := {0, 1}, threshold := 1, complaints := [] }
    pendingComplainMessages := [] }

/-- A two-member `KeyGen` state in `Contribution` already holding a
`ProposalState` for proposer `0`, used to exercise the acknowledgment
handler. -/
def kgC10 : KeyGen Nat Nat :=
  { ourId := 0
    ourIndex := 0
    pubKeys := {0, 1}
    parts := [(0, { commitment := 0, values := [], encValues := [], acks := ∅ })]
    threshold := 0
    phase := Phase.contribution
    initAcc := { senders := ∅, initializations := [] }
    complaintsAcc := { pubKeys := {0, 1}, threshold := 0, complaints := [] }
    pendingComplainMessages := [] }

/-- A two-member `KeyGen` state in `Contribution` holding a recorded
commitment `5` from proposer `1`, used to exercise the `MultipleParts`
conflict path. -/
def kgC5 : KeyGen Nat Nat :=
  { ourId := 0
    ourIndex := 0
    pubKeys := {0, 1}
    parts := [(1, { commitment := 5, values := [], encValues := [], acks := ∅ })]
    threshold := 1
    phase := Phase.contribution
    initAcc := { senders := ∅, initializations := [] }
    complaintsAcc := { pubKeys := {0, 1}, threshold := 1, complaints := [] }
    pendingComplainMessages := [] }

/-- A four-member `KeyGen` state in `Complaining` whose complaint accumulator
unanimously accuses the local node, driving `finalize_complaining_phase` into
the branch that removes the local node and then fails to resolve its index. -/
def kgC7 : KeyGen Nat Nat :=
  { ourId := 0
    ourIndex := 0
    pubKeys := {0, 1, 2, 3}
    parts := []
    threshold := 1
    phase := Phase.complaining
    initAcc := { senders := ∅, initializations := [] }
    complaintsAcc :=
      { pubKeys := {0, 1, 2, 3}, threshold := 1, complaints := [(0, {0, 1, 2, 3})] }
    pendingComplainMessages := [] }


theorem alLookup_alInsert_self {κ α : Type} [DecidableEq κ] (k : κ) (v : α)
    (l : List (κ × α)) : alLookup (alInsert k v l) k = some v := by
  induction l with
  | nil => simp [alInsert, alLookup]
  | cons e t ih =>
      by_cases h : e.1 = k
      · simp [alInsert, h, alLookup]
      · simp [alInsert, h, alLookup, ih]

theorem alLookup_alInsert_of_ne {κ α : Type} [DecidableEq κ] {k k' : κ} (v : α)
    (l : List (κ × α)) (h : k' ≠ k) :
    alLookup (alInsert k v l) k' = alLookup l k' := by
  have hkk : ¬k = k' := fun h' => h h'.symm
  induction l with
  | nil => simp [alInsert, alLookup, hkk]
  | cons e t ih =>
      by_cases he : e.1 = k
      · subst he
        simp [alInsert, alLookup, hkk]
      · by_cases he' : e.1 = k'
        · simp [alInsert, alLookup, he, he', h]
        · simp [alInsert, alLookup, he, he', ih]

theorem alLookup_append_of_none {κ α : Type} [DecidableEq κ] {k : κ} (v : α)
    {l : List (κ × α)} (h : alLookup l k = none) :
    alLookup (l ++ [(k, v)]) k = some v := by
  induction l with
  | nil => simp [alLookup]
  | cons e t ih =>
      by_cases he : e.1 = k
      · rw [alLookup, if_pos he] at h
        exact absurd h (by simp)
      · rw [alLookup, if_neg he] at h
        rw [List.cons_append, alLookup, if_neg he]
        exact ih h

theorem mem_ascList {s : Finset Nat} {x : Nat} : x ∈ ascList s ↔ x ∈ s := by
  cases s with
  | mk val nd =>
      revert nd
      refine Quot.inductionOn val ?_
      intro l nd
      show x ∈ l.insertionSort (· ≤ ·) ↔ _
      rw [List.mem_insertionSort]
      exact Iff.rfl

/-- C1 (amended).  `add_initialization(m, n, sender, members)` returns `none`
for a duplicate sender and leaves the accumulator unchanged; otherwise it
records the sender, increments the count of `(m, n, members)` (creating it at
one), and returns `some` of the triple exactly when the triple was already
recorded before the call and the incremented count is at least `m`.  In
particular, with `m = 1` the first sender's vote returns `none` (the quorum
is only signalled from the second distinct sender on), and every later
distinct sender of a triple whose count reached `m` is answered with `some`
again. -/
theorem spec_c1 (acc : InitializationAccumulator) (m n s : Nat) (ml : Finset Nat) :
    (s ∈ acc.senders → addInitialization acc m n s ml = (acc, none)) ∧
    (s ∉ acc.senders →
      (addInitialization acc m n s ml).1.senders = insert s acc.senders ∧
      initCount (addInitialization acc m n s ml).1 (m, n, ml) =
        initCount acc (m, n, ml) + 1 ∧
      (addInitialization acc m n s ml).2 =
        (if (alLookup acc.initializations (m, n, ml)).isSome ∧
            m ≤ initCount acc (m, n, ml) + 1
         then some (m, n, ml) else none)) := by
  constructor
  · intro hs
    simp [addInitialization, hs]
  · intro hs
    cases hl : alLookup acc.initializations (m, n, ml) with
    | some c =>
        by_cases hm : m ≤ c + 1
        · simp [addInitialization, hs, hl, hm, initCount, alLookup_alInsert_self]
        · simp [addInitialization, hs, hl, hm, initCount, alLookup_alInsert_self]
    | none =>
        simp [addInitialization, hs, hl, initCount,
          alLookup_append_of_none (1 : Nat) hl]

/-- Witness for C1 at a concrete input: a fresh sender voting for a triple
already recorded with count one and `m = 2` is answered with the triple. -/
theorem spec_c1_witness :
    (0 : Nat) ∉ ({1} : Finset Nat) ∧
    (addInitialization
        { senders := {1}, initializations := [((2, 3, {0, 1, 2}), 1)] }
        2 3 0 {0, 1, 2}).2 = some (2, 3, {0, 1, 2}) := by
  refine ⟨by decide, ?_⟩
  have h := (spec_c1 { senders := {1}, initializations := [((2, 3, {0, 1, 2}), 1)] }
    2 3 0 {0, 1, 2}).2 (by decide)
  rw [h.2.2]
  rw [if_pos]
  constructor
  · decide
  · decide

/-- Counterexample to C1 as stated: with `m = 1` the very first sender makes
the count of the triple reach `m`, yet `add_initialization` returns `none`
(the vacant branch of the Rust `match` never signals agreement). -/
theorem spec_c1_cex :
    (addInitialization { senders := ∅, initializations := [] } 1 1 0 {0}).2 = none ∧
    initCount (addInitialization { senders := ∅, initializations := [] } 1 1 0 {0}).1
      (1, 1, {0}) = 1 := by
  constructor
  · decide
  · decide

/-- C2: `add_complaint` on a vacant target entry records the target itself,
not the sender, as the accuser.  At the concrete failing input (members
`{0, 1}`, first complaint from sender `0` against target `1`) the accuser
set stored for `1` is `{1}` rather than `{0}`. -/
theorem spec_c2 :
    addComplaint { pubKeys := {0, 1}, threshold := 1, complaints := [] } 0 1 [] =
      { pubKeys := {0, 1}, threshold := 1, complaints := [(1, {1})] } ∧
    (0 : Nat) ∉ ({1} : Finset Nat) := by
  constructor
  · decide
  · decide

theorem fcStep_foldl_fst (pk : Finset Nat) (thr : Nat)
    (l : List (Nat × Finset Nat)) (init : Finset Nat × (Nat → Nat)) (x : Nat) :
    (x ∈ (l.foldl (fcStep pk thr) init).1 ↔
      x ∈ init.1 ∨ ∃ e ∈ l, e.1 = x ∧ pk.card - thr < e.2.card) := by
  induction l generalizing init with
  | nil => simp
  | cons e t ih =>
      rw [List.foldl_cons, ih]
      by_cases hc : pk.card - thr < e.2.card
      · simp only [fcStep, if_pos hc, Finset.mem_insert, List.mem_cons]
        constructor
        · rintro (⟨h | h⟩ | h)
          · exact Or.inr ⟨e, Or.inl rfl, h.symm, hc⟩
          · exact Or.inl h
          · rcases h with ⟨e', he', h1, h2⟩
            exact Or.inr ⟨e', Or.inr he', h1, h2⟩
        · rintro (h | ⟨e', he', h1, h2⟩)
          · exact Or.inl (Or.inr h)
          · rcases he' with he' | he'
            · subst he'
              exact Or.inl (Or.inl h1.symm)
            · exact Or.inr ⟨e', he', h1, h2⟩
      · simp only [fcStep, if_neg hc, List.mem_cons]
        constructor
        · rintro (h | ⟨e', he', h1, h2⟩)
          · exact Or.inl h
          · exact Or.inr ⟨e', Or.inr he', h1, h2⟩
        · rintro (h | ⟨e', he', h1, h2⟩)
          · exact Or.inl h
          · rcases he' with he' | he'
            · subst he'
              exact absurd h2 hc
            · exact Or.inr ⟨e', he', h1, h2⟩

theorem fcStep_foldl_snd (pk : Finset Nat) (thr : Nat)
    (l : List (Nat × Finset Nat)) (init : Finset Nat × (Nat → Nat)) (p : Nat) :
    (l.foldl (fcStep pk thr) init).2 p =
      init.2 p +
        l.countP (fun e => decide (pk.card - thr < e.2.card ∧ p ∈ pk ∧ p ∉ e.2)) := by
  induction l generalizing init with
  | nil => simp
  | cons e t ih =>
      rw [List.foldl_cons, ih, List.countP_cons]
      by_cases hc : pk.card - thr < e.2.card
      · by_cases h1 : p ∈ pk
        · by_cases h2 : p ∈ e.2
          · have hstep : (fcStep pk thr init e).2 p = init.2 p := by
              simp [fcStep, hc, h2]
            have hd : (decide (pk.card - thr < e.2.card ∧ p ∈ pk ∧ p ∉ e.2)) = false := by
              simp [hc, h1, h2]
            rw [hstep, hd]
            simp
          · have hstep : (fcStep pk thr init e).2 p = init.2 p + 1 := by
              simp [fcStep, hc, h1, h2]
            have hd : (decide (pk.card - thr < e.2.card ∧ p ∈ pk ∧ p ∉ e.2)) = true := by
              simp [hc, h1, h2]
            rw [hstep, hd]
            simp
            omega
        · have hstep : (fcStep pk thr init e).2 p = init.2 p := by
            simp [fcStep, hc, h1]
          have hd : (decide (pk.card - thr < e.2.card ∧ p ∈ pk ∧ p ∉ e.2)) = false := by
            simp [hc, h1]
          rw [hstep, hd]
          simp
      · have hstep : (fcStep pk thr init e).2 p = init.2 p := by
          simp [fcStep, hc]
        have hd : (decide (pk.card - thr < e.2.card ∧ p ∈ pk ∧ p ∉ e.2)) = false := by
          simp [hc]
        rw [hstep, hd]
        simp

theorem foldl_insert_filter (P : Nat → Prop) [DecidablePred P] (L : List Nat)
    (init : Finset Nat) (x : Nat) :
    (x ∈ L.foldl (fun inv p => if P p then insert p inv else inv) init ↔
      x ∈ init ∨ (x ∈ L ∧ P x)) := by
  induction L generalizing init with
  | nil => simp
  | cons a t ih =>
      rw [List.foldl_cons, ih]
      by_cases hp : P a
      · simp only [if_pos hp, Finset.mem_insert, List.mem_cons]
        constructor
        · rintro (⟨h | h⟩ | h)
          · subst h
            exact Or.inr ⟨Or.inl rfl, hp⟩
          · exact Or.inl h
          · exact Or.inr ⟨Or.inr h.1, h.2⟩
        · rintro (h | ⟨h1 | h1, h2⟩)
          · exact Or.inl (Or.inr h)
          · subst h1
            exact Or.inl (Or.inl rfl)
          · exact Or.inr ⟨h1, h2⟩
      · simp only [if_neg hp, List.mem_cons]
        constructor
        · rintro (h | h)
          · exact Or.inl h
          · exact Or.inr ⟨Or.inr h.1, h.2⟩
        · rintro (h | ⟨h1 | h1, h2⟩)
          · exact Or.inl h
          · subst h1
            exact absurd h2 hp
          · exact Or.inr ⟨h1, h2⟩

/-- C3: with member set of size `n` and threshold `t` (with `t ≤ n`, the
domain on which the Rust `usize` subtraction is defined),
`finalize_complaining_phase` returns exactly the union of (a) the targets
whose accuser set is larger than `n - t` and (b) the members that failed to
accuse strictly more than `n / 2` of the targets in (a). -/
theorem spec_c3 (acc : ComplaintsAccumulator)
    (h : acc.threshold ≤ acc.pubKeys.card) (x : Nat) :
    (x ∈ finalizeComplaints acc ↔
      (∃ e ∈ acc.complaints,
          (e : Nat × Finset Nat).1 = x ∧
          acc.pubKeys.card - acc.threshold < e.2.card) ∨
      (x ∈ acc.pubKeys ∧
        acc.pubKeys.card / 2 <
          acc.complaints.countP
            (fun e => decide (acc.pubKeys.card - acc.threshold < e.2.card ∧ x ∉ e.2)))) := by
  clear h
  unfold finalizeComplaints
  rw [foldl_insert_filter
    (fun p =>
      acc.pubKeys.card / 2 <
        (acc.complaints.foldl (fcStep acc.pubKeys acc.threshold) (∅, fun _ => 0)).2 p)]
  rw [fcStep_foldl_fst]
  constructor
  · rintro ((h | h) | ⟨hx, hcount⟩)
    · exact absurd h (Finset.not_mem_empty x)
    · exact Or.inl h
    · rw [mem_ascList] at hx
      rw [fcStep_foldl_snd] at hcount
      have h0 : (((∅ : Finset Nat), fun (_ : Nat) => (0 : Nat)) :
          Finset Nat × (Nat → Nat)).2 x = 0 := rfl
      rw [h0] at hcount
      refine Or.inr ⟨hx, ?_⟩
      have hcc : acc.complaints.countP
          (fun e => decide (acc.pubKeys.card - acc.threshold < e.2.card ∧
            x ∈ acc.pubKeys ∧ x ∉ e.2)) =
          acc.complaints.countP
          (fun e => decide (acc.pubKeys.card - acc.threshold < e.2.card ∧ x ∉ e.2)) := by
        apply List.countP_congr
        intro e _
        simp [hx]
      omega
  · rintro (h | ⟨hx, hcount⟩)
    · exact Or.inl (Or.inr h)
    · refine Or.inr ⟨mem_ascList.mpr hx, ?_⟩
      rw [fcStep_foldl_snd]
      have h0 : (((∅ : Finset Nat), fun (_ : Nat) => (0 : Nat)) :
          Finset Nat × (Nat → Nat)).2 x = 0 := rfl
      rw [h0]
      have hcc : acc.complaints.countP
          (fun e => decide (acc.pubKeys.card - acc.threshold < e.2.card ∧
            x ∈ acc.pubKeys ∧ x ∉ e.2)) =
          acc.complaints.countP
          (fun e => decide (acc.pubKeys.card - acc.threshold < e.2.card ∧ x ∉ e.2)) := by
        apply List.countP_congr
        intro e _
        simp [hx]
      omega

/-- Witness for C3 at a concrete accumulator: members `{0, 1, 2}`, threshold
one, and three accusers against target `2` put exactly the target in the
faulty set. -/
theorem spec_c3_witness :
    (2 : Nat) ∈ finalizeComplaints
      { pubKeys := {0, 1, 2}, threshold := 1, complaints := [(2, {0, 1, 2})] } := by
  exact (spec_c3
    { pubKeys := {0, 1, 2}, threshold := 1, complaints := [(2, {0, 1, 2})] }
    (by decide) 2).2 (Or.inl ⟨(2, {0, 1, 2}), by decide, by decide, by decide⟩)

/-- C4 (amended).  `handle_message` rejects `Initialization` outside the
`Initialization` phase, `Proposal` and `Acknowledgment` outside `Contribution`
and `Commitment`, and `Complaint` outside `Complaining`, each with
`UnexpectedPhase` and an unchanged state; `Justification` messages, however,
are accepted in every phase as a no-op (the handler is a stub without a phase
guard). -/
theorem spec_c4 {C RC F G Row BP : Type} [DecidableEq C] [DecidableEq RC]
    [DecidableEq G] (ext : ExtOps C RC F G Row BP) (bp : BP) (σ : KeyGen C F) :
    (∀ k m n ml, σ.phase ≠ Phase.initialization →
      KeyGen.handleMessage ext bp σ (Message.initialization k m n ml) =
        (σ, Except.error (Error.unexpectedPhase Phase.initialization σ.phase))) ∧
    (∀ k part, ¬(σ.phase = Phase.contribution ∨ σ.phase = Phase.commitment) →
      KeyGen.handleMessage ext bp σ (Message.proposal k part) =
        (σ, Except.error (Error.unexpectedPhase Phase.contribution σ.phase))) ∧
    (∀ k a, ¬(σ.phase = Phase.contribution ∨ σ.phase = Phase.commitment) →
      KeyGen.handleMessage ext bp σ (Message.acknowledgment k a) =
        (σ, Except.error (Error.unexpectedPhase Phase.contribution σ.phase))) ∧
    (∀ k t msg, σ.phase ≠ Phase.complaining →
      KeyGen.handleMessage ext bp σ (Message.complaint k t msg) =
        (σ, Except.error (Error.unexpectedPhase Phase.complaining σ.phase))) ∧
    (∀ k km, KeyGen.handleMessage ext bp σ (Message.justification k km) =
        (σ, Except.ok [])) := by
  refine ⟨?_, ?_, ?_, ?_, ?_⟩
  · intro k m n ml h
    simp [KeyGen.handleMessage, KeyGen.handleInitialization, h]
  · intro k part h
    simp [KeyGen.handleMessage, KeyGen.handleProposal, h]
  · intro k a h
    simp [KeyGen.handleMessage, KeyGen.handleAck, h]
  · intro k t msg h
    simp [KeyGen.handleMessage, KeyGen.handleComplaint, h]
  · intro k km
    simp [KeyGen.handleMessage, KeyGen.handleJustification]

/-- Witness for C4 at a concrete state: in phase `Justification`, a
`Proposal` is rejected with `UnexpectedPhase` and the state is unchanged. -/
theorem spec_c4_witness :
    KeyGen.handleMessage ext0 0 (kgFix Phase.justification)
        (Message.proposal 1 { receiver := 0, commitment := 0, serRow := [], encRows := [] }) =
      ((kgFix Phase.justification),
        Except.error (Error.unexpectedPhase Phase.contribution Phase.justification)) := by
  exact (spec_c4 ext0 0 (kgFix Phase.justification)).2.1 1
    { receiver := 0, commitment := 0, serRow := [], encRows := [] } (by decide)

/-- Counterexample to C4 as stated: a `Justification` message delivered in
phase `Initialization` is not answered with `UnexpectedPhase`; the handler
accepts it and returns no messages. -/
theorem spec_c4_cex :
    KeyGen.handleMessage ext0 0 (kgFix Phase.initialization)
        (Message.justification 1 []) =
      ((kgFix Phase.initialization), Except.ok []) := rfl

/-- C6: `initialize` fails with `Unknown` exactly when the member set is
smaller than the threshold or the caller is not a member; otherwise the
returned instance is in phase `Initialization` and the returned message is an
`Initialization` announcement carrying the caller's index (the position of
its id in the sorted member set), `m` equal to the threshold, `n` equal to
the member count, and the member list itself. -/
theorem spec_c6 (C F : Type) [DecidableEq C] [DecidableEq F]
    (ourId threshold : Nat) (pubKeys : Finset Nat) :
    ((KeyGen.initializeDkg C F ourId threshold pubKeys).isOk ↔
      ¬(pubKeys.card < threshold ∨ ourId ∉ pubKeys)) ∧
    (∀ e, KeyGen.initializeDkg C F ourId threshold pubKeys = Except.error e →
      e = Error.unknown) ∧
    (∀ kg msg, KeyGen.initializeDkg C F ourId threshold pubKeys = Except.ok (kg, msg) →
      kg.phase = Phase.initialization ∧
      msg = Message.initialization kg.ourIndex threshold pubKeys.card pubKeys ∧
      (ascList pubKeys).get? kg.ourIndex = some ourId ∧
      kg.threshold = threshold ∧ kg.pubKeys = pubKeys ∧ kg.ourId = ourId) := by
  unfold KeyGen.initializeDkg
  by_cases hcard : pubKeys.card < threshold
  · simp only [if_pos hcard]
    refine ⟨?_, ?_, ?_⟩
    · simp [Except.isOk, Except.toBool, hcard]
    · intro e he
      cases he
      rfl
    · intro kg msg h
      cases h
  · simp only [if_neg hcard]
    cases hf : (ascList pubKeys).findIdx? (fun p => p = ourId) with
    | none =>
        have hmem : ourId ∉ pubKeys := by
          rw [List.findIdx?_eq_none_iff] at hf
          intro hin
          have := hf ourId (mem_ascList.mpr hin)
          simp at this
        refine ⟨?_, ?_, ?_⟩
        · simp [Except.isOk, Except.toBool, hcard, hmem]
        · intro e he
          cases he
          rfl
        · intro kg msg h
          cases h
    | some i =>
        have hmem : ourId ∈ pubKeys := by
          rw [List.findIdx?_eq_some_iff_getElem] at hf
          obtain ⟨hlt, hp, _⟩ := hf
          have : (ascList pubKeys)[i] = ourId := by simpa using hp
          rw [← this]
          exact mem_ascList.mp (List.getElem_mem hlt)
        refine ⟨?_, ?_, ?_⟩
        · simp [Except.isOk, Except.toBool, hcard, hmem]
        · intro e he
          cases he
        · intro kg msg h
          cases h
          refine ⟨rfl, rfl, ?_, rfl, rfl, rfl⟩
          rw [List.findIdx?_eq_some_iff_getElem] at hf
          obtain ⟨hlt, hp, _⟩ := hf
          have hi : (ascList pubKeys)[i] = ourId := by simpa using hp
          rw [List.get?_eq_getElem?, List.getElem?_eq_getElem hlt, hi]

/-- Witness for C6 at a concrete input: member set `{3, 5, 9}` with threshold
`2` and caller `5` succeeds, the caller's index is `1`, and the announcement
carries `(1, 2, 3, {3, 5, 9})`. -/
theorem spec_c6_witness :
    KeyGen.initializeDkg Nat Nat 5 2 {3, 5, 9} =
      Except.ok
        ({ ourId := 5
           ourIndex := 1
           pubKeys := {3, 5, 9}
           parts := []
           threshold := 2
           phase := Phase.initialization
           initAcc := { senders := ∅, initializations := [] }
           complaintsAcc := { pubKeys := {3, 5, 9}, threshold := 2, complaints := [] }
           pendingComplainMessages := [] },
         Message.initialization 1 2 3 {3, 5, 9}) ∧
    ((KeyGen.initializeDkg Nat Nat 5 2 {3, 5, 9}).isOk ↔
      ¬(Finset.card {3, 5, 9} < 2 ∨ (5 : Nat) ∉ ({3, 5, 9} : Finset Nat))) := by
  constructor
  · decide
  · exact (spec_c6 Nat Nat 5 2 {3, 5, 9}).1

/-- C8: reachable run hitting the flagged allocator bug.  Starting from
`from_xornames [10, 11, 12]`, removing `11` and then batch-adding two names
reuses the freed share `1` and also allocates the fresh counter value `2`,
which is still assigned to `12`: the share vector ends up `[0, 2, 1, 2]` with
share `2` handed to two present names. -/
theorem spec_c8 :
    (((ShareXorName.from_xornames [10, 11, 12]).remove_xorname 11).add_xornames
        [13, 14]).shares = [0, 2, 1, 2] ∧
    ¬(((ShareXorName.from_xornames [10, 11, 12]).remove_xorname 11).add_xornames
        [13, 14]).shares.Nodup := by
  constructor
  · decide
  · decide

theorem add_xorname_eq (s : ShareXorName) (x : Nat) :
    s.add_xorname x = ShareXorName.sortPairs
      { s with
        xornames := s.xornames ++ [x]
        shares := s.shares ++ [s.popShare]
        available := s.available.dropLast } := by
  unfold ShareXorName.add_xorname ShareXorName.popShare
  cases hg : s.available.getLast? with
  | some m => simp [hg]
  | none =>
      have hA : s.available = [] := List.getLast?_eq_none_iff.mp hg
      simp [hg, hA]

theorem get_share_pairs (s' : ShareXorName) (pl : List (Nat × Nat)) (x v : Nat)
    (hxn : s'.xornames = pl.map Prod.fst) (hsh : s'.shares = pl.map Prod.snd)
    (hv : ∀ q ∈ pl, (q : Nat × Nat).1 = x → q.2 = v)
    (hx : x ∈ pl.map Prod.fst) :
    s'.get_share x = some v := by
  unfold ShareXorName.get_share
  rw [hxn, hsh]
  cases hf : (pl.map Prod.fst).findIdx? (fun name => name = x) with
  | none =>
      rw [List.findIdx?_eq_none_iff] at hf
      have := hf x hx
      simp at this
  | some i =>
      rw [List.findIdx?_eq_some_iff_getElem] at hf
      obtain ⟨hlt, hp, _⟩ := hf
      have hlt' : i < pl.length := by simpa using hlt
      have h1 : pl[i].1 = x := by
        have h2 : (pl.map Prod.fst)[i] = x := by simpa using hp
        rwa [List.getElem_map] at h2
      have h2 : (pl.map Prod.snd).getD i 0 = pl[i].2 := by
        rw [List.getD_eq_getElem (pl.map Prod.snd) 0 (by simpa using hlt')]
        rw [List.getElem_map]
      show some ((pl.map Prod.snd).getD i 0) = some v
      rw [h2, hv pl[i] (List.getElem_mem hlt') h1]

theorem add_sorted_props (xs shs : List Nat) (x sh : Nat)
    (hx : x ∉ xs) (hlen : xs.length = shs.length) :
    (∀ q ∈ ((xs ++ [x]).zip (shs ++ [sh])).insertionSort pairLe,
        (q : Nat × Nat).1 = x → q.2 = sh) ∧
    x ∈ ((((xs ++ [x]).zip (shs ++ [sh])).insertionSort pairLe).map Prod.fst) ∧
    ((((xs ++ [x]).zip (shs ++ [sh])).insertionSort pairLe).map Prod.fst).count x = 1 := by
  have hzip : (xs ++ [x]).zip (shs ++ [sh]) = xs.zip shs ++ [(x, sh)] :=
    List.zip_append hlen
  have hperm := List.perm_insertionSort pairLe ((xs ++ [x]).zip (shs ++ [sh]))
  refine ⟨?_, ?_, ?_⟩
  · intro q hq hq1
    have hq' : q ∈ xs.zip shs ++ [(x, sh)] := by
      rw [← hzip]
      exact hperm.mem_iff.mp hq
    rcases List.mem_append.mp hq' with hmem | hmem
    · exfalso
      have hqx : q.1 ∈ xs := by
        have hm := List.mem_map_of_mem Prod.fst hmem
        rwa [List.map_fst_zip xs shs (le_of_eq hlen)] at hm
      rw [hq1] at hqx
      exact hx hqx
    · have hq2 : q = (x, sh) := by simpa using hmem
      rw [hq2]
  · have hmem : ((x, sh) : Nat × Nat) ∈
        ((xs ++ [x]).zip (shs ++ [sh])).insertionSort pairLe := by
      apply hperm.mem_iff.mpr
      rw [hzip]
      exact List.mem_append_right _ (by simp)
    exact List.mem_map_of_mem Prod.fst hmem
  · have hpm := (hperm.map Prod.fst).count_eq x
    rw [hpm, hzip, List.map_append, List.map_fst_zip xs shs (le_of_eq hlen),
      List.count_append]
    have h0 : xs.count x = 0 := List.count_eq_zero.mpr hx
    simp [h0]

theorem count_eraseIdx_add_one {l : List Nat} {p x : Nat} (hp : p < l.length)
    (hx : l[p] = x) : (l.eraseIdx p).count x + 1 = l.count x := by
  induction l generalizing p with
  | nil => simp at hp
  | cons a t ih =>
      cases p with
      | zero =>
          have ha : a = x := by simpa using hx
          subst ha
          rw [List.eraseIdx_cons_zero, List.count_cons_self]
      | succ p =>
          have hp' : p < t.length := by simpa using hp
          have hx' : t[p] = x := by simpa using hx
          rw [List.eraseIdx_cons_succ]
          by_cases hax : x = a
          · subst hax
            rw [List.count_cons_self, List.count_cons_self]
            have := ih hp' hx'
            omega
          · rw [List.count_cons_of_ne hax, List.count_cons_of_ne hax]
            exact ih hp' hx'

theorem remove_xorname_after (s1 : ShareXorName) (pl : List (Nat × Nat)) (x sh : Nat)
    (hxn : s1.xornames = pl.map Prod.fst) (hsh : s1.shares = pl.map Prod.snd)
    (hv : ∀ q ∈ pl, (q : Nat × Nat).1 = x → q.2 = sh)
    (hcnt : (pl.map Prod.fst).count x = 1) :
    x ∉ (s1.remove_xorname x).xornames ∧
    (s1.remove_xorname x).xornames.length = (s1.remove_xorname x).shares.length ∧
    (s1.remove_xorname x).available = (s1.available ++ [sh]).insertionSort geShare := by
  have hxmem : x ∈ s1.xornames := by
    rw [hxn]
    exact List.count_pos_iff.mp (by omega)
  unfold ShareXorName.remove_xorname
  cases hf : s1.xornames.findIdx? (fun name => name = x) with
  | none =>
      rw [List.findIdx?_eq_none_iff] at hf
      have := hf x hxmem
      simp at this
  | some p =>
      dsimp only
      rw [List.findIdx?_eq_some_iff_getElem] at hf
      obtain ⟨hlt, hp, _⟩ := hf
      have hpx : s1.xornames[p] = x := by simpa using hp
      have hplt : p < pl.length := by
        rw [hxn] at hlt
        simpa using hlt
      have hslen : p < s1.shares.length := by
        rw [hsh]
        simpa using hplt
      have hplx : pl[p].1 = x := by
        have hq : s1.xornames[p]? = some x := by
          rw [List.getElem?_eq_getElem hlt, hpx]
        rw [hxn] at hq
        rw [List.getElem?_eq_getElem (by simpa using hplt)] at hq
        have hq2 := (Option.some.injEq _ _).mp hq
        rwa [List.getElem_map] at hq2
      refine ⟨?_, ?_, ?_⟩
      · intro hmem
        have hc := count_eraseIdx_add_one hlt hpx
        have hcc : s1.xornames.count x = 1 := by
          rw [hxn]
          exact hcnt
        have hpos := List.count_pos_iff.mpr hmem
        omega
      · rw [List.length_eraseIdx, List.length_eraseIdx, if_pos hlt, if_pos hslen,
          hxn, hsh]
        simp
      · have hgd : s1.shares.getD p 0 = sh := by
          rw [hsh, List.getD_eq_getElem _ _ (by simpa using hplt), List.getElem_map]
          exact hv pl[p] (List.getElem_mem hplt) hplx
        rw [hgd]

theorem pool_restore (A : List Nat) (hA : List.Sorted geShare A) (d : Nat) :
    ((A.dropLast ++ [A.getLast?.getD d]).insertionSort geShare).getLast? =
      some (A.getLast?.getD d) := by
  cases hAe : A.getLast? with
  | none =>
      have hAnil : A = [] := List.getLast?_eq_none_iff.mp hAe
      subst hAnil
      simp [List.insertionSort, List.orderedInsert]
  | some m =>
      have hne : A ≠ [] := by
        intro h
        subst h
        simp at hAe
      have hm : A.getLast hne = m := by
        have hl := List.getLast?_eq_getLast A hne
        rw [hAe] at hl
        exact (Option.some.injEq _ _).mp hl.symm
      show (List.insertionSort geShare (A.dropLast ++ [m])).getLast? = some m
      have hall : A.dropLast ++ [m] = A := by
        rw [← hm]
        exact List.dropLast_append_getLast hne
      rw [hall, hA.insertionSort_eq]
      exact hAe

/-- C9: starting from a roster satisfying the invariants (`x` not present,
`|names| = |shares|`, pool sorted decreasingly), the sequence
`add(x); remove(x); add(x)` assigns `x` the same share both times. -/
theorem spec_c9 (s : ShareXorName) (x : Nat) (hx : x ∉ s.xornames)
    (hlen : s.xornames.length = s.shares.length)
    (hav : List.Sorted geShare s.available) :
    ∃ sh, (s.add_xorname x).get_share x = some sh ∧
      (((s.add_xorname x).remove_xorname x).add_xorname x).get_share x = some sh := by
  refine ⟨s.popShare, ?_, ?_⟩
  · have h1 := add_sorted_props s.xornames s.shares x s.popShare hx hlen
    exact get_share_pairs (s.add_xorname x)
      (((s.xornames ++ [x]).zip (s.shares ++ [s.popShare])).insertionSort pairLe)
      x s.popShare (by rw [add_xorname_eq]; rfl) (by rw [add_xorname_eq]; rfl)
      h1.1 h1.2.1
  · have h1 := add_sorted_props s.xornames s.shares x s.popShare hx hlen
    have h2 := remove_xorname_after (s.add_xorname x)
      (((s.xornames ++ [x]).zip (s.shares ++ [s.popShare])).insertionSort pairLe)
      x s.popShare (by rw [add_xorname_eq]; rfl) (by rw [add_xorname_eq]; rfl)
      h1.1 h1.2.2
    have havail1 : (s.add_xorname x).available = s.available.dropLast := by
      rw [add_xorname_eq]
      rfl
    have hpool : ((s.add_xorname x).remove_xorname x).available.getLast? =
        some s.popShare := by
      rw [h2.2.2, havail1]
      exact pool_restore s.available hav s.xornames.length
    have hpop2 : ((s.add_xorname x).remove_xorname x).popShare = s.popShare := by
      unfold ShareXorName.popShare
      rw [hpool]
      rfl
    have h4 := add_sorted_props ((s.add_xorname x).remove_xorname x).xornames
      ((s.add_xorname x).remove_xorname x).shares x
      ((s.add_xorname x).remove_xorname x).popShare h2.1 h2.2.1
    have h5 := get_share_pairs (((s.add_xorname x).remove_xorname x).add_xorname x)
      (((((s.add_xorname x).remove_xorname x).xornames ++ [x]).zip
        (((s.add_xorname x).remove_xorname x).shares ++
          [((s.add_xorname x).remove_xorname x).popShare])).insertionSort pairLe)
      x ((s.add_xorname x).remove_xorname x).popShare
      (by rw [add_xorname_eq]; rfl) (by rw [add_xorname_eq]; rfl) h4.1 h4.2.1
    rwa [hpop2] at h5

/-- Witness for C9 at a concrete roster: names `[1, 3]` with shares `[0, 1]`
and pool `[2]`; adding `5`, removing it and adding it again hands out share
`2` both times. -/
theorem spec_c9_witness :
    (∃ sh,
      (ShareXorName.add_xorname
        { xornames := [1, 3], shares := [0, 1], available := [2], epochid := 0 } 5).get_share 5 =
          some sh ∧
      (((ShareXorName.add_xorname
        { xornames := [1, 3], shares := [0, 1], available := [2], epochid := 0 } 5).remove_xorname
          5).add_xorname 5).get_share 5 = some sh) ∧
    (ShareXorName.add_xorname
        { xornames := [1, 3], shares := [0, 1], available := [2], epochid := 0 } 5).get_share 5 =
      some 2 := by
  constructor
  · exact spec_c9
      { xornames := [1, 3], shares := [0, 1], available := [2], epochid := 0 } 5
      (by decide) (by decide) (List.sorted_singleton 2)
  · decide

/-- C10: when `handle_ack_or_fault` attributes a `DeserializeValue` or
`ValueAcknowledgment` fault to `(proposer, sender)`, the sender was a
previously unseen acknowledger whose index was inserted into the proposer's
`acks` *before* the value was deserialized and verified, so it remains there
afterwards: the recorded set is exactly the old set plus the sender, its size
grew by one, and the faulty acknowledgment counts toward
`is_complete (|acks| > threshold)` exactly as a valid one would. -/
theorem spec_c10 {C RC F G Row BP : Type} [DecidableEq C] [DecidableEq RC]
    [DecidableEq G] (ext : ExtOps C RC F G Row BP) (σ : KeyGen C F)
    (s : Nat) (a : Acknowledgment)
    (herr :
      (KeyGen.handleAckOrFault ext σ s a).2 =
          Except.error AcknowledgmentFault.deserializeValue ∨
      (KeyGen.handleAckOrFault ext σ s a).2 =
          Except.error AcknowledgmentFault.valueAcknowledgment) :
    ∃ st, alLookup σ.parts a.proposerIndex = some st ∧ s ∉ st.acks ∧
      ∃ st', alLookup (KeyGen.handleAckOrFault ext σ s a).1.parts a.proposerIndex =
          some st' ∧
        st'.acks = insert s st.acks ∧ s ∈ st'.acks ∧
        st'.acks.card = st.acks.card + 1 ∧
        (st'.is_complete σ.threshold ↔ σ.threshold < st.acks.card + 1) := by
  by_cases h1 : a.values.length = σ.pubKeys.card
  case neg =>
    have hres : (KeyGen.handleAckOrFault ext σ s a).2 =
        Except.error AcknowledgmentFault.valueCount := by
      unfold KeyGen.handleAckOrFault
      simp [h1]
    rw [hres] at herr
    rcases herr with h | h <;> simp at h
  case pos =>
    by_cases h2 : a.receiverIndex = σ.ourIndex
    case neg =>
      have hres : (KeyGen.handleAckOrFault ext σ s a).2 = Except.ok () := by
        unfold KeyGen.handleAckOrFault
        simp [h1, h2]
      rw [hres] at herr
      rcases herr with h | h <;> simp at h
    case pos =>
      cases hl : alLookup σ.parts a.proposerIndex with
      | none =>
          have hres : (KeyGen.handleAckOrFault ext σ s a).2 =
              Except.error AcknowledgmentFault.missingPart := by
            unfold KeyGen.handleAckOrFault
            simp [h1, h2, hl]
          rw [hres] at herr
          rcases herr with h | h <;> simp at h
      | some part =>
          by_cases h3 : s ∈ part.acks
          case pos =>
            have hres : (KeyGen.handleAckOrFault ext σ s a).2 = Except.ok () := by
              unfold KeyGen.handleAckOrFault
              simp [h1, h2, hl, h3]
            rw [hres] at herr
            rcases herr with h | h <;> simp at h
          case neg =>
            cases hd : ext.deserializeVal a.serVal with
            | none =>
                have hres1 : (KeyGen.handleAckOrFault ext σ s a).1.parts =
                    alInsert a.proposerIndex ({ part with acks := insert s part.acks }) σ.parts := by
                  unfold KeyGen.handleAckOrFault
                  simp [h1, h2, hl, h3, hd]
                refine ⟨part, rfl, h3,
                  ({ part with acks := insert s part.acks }), ?_, rfl,
                  Finset.mem_insert_self _ _,
                  Finset.card_insert_of_not_mem h3, ?_⟩
                · rw [hres1]
                  exact alLookup_alInsert_self _ _ _
                · unfold ProposalState.is_complete
                  rw [Finset.card_insert_of_not_mem h3]
            | some val =>
                by_cases h4 : ext.commitmentEval part.commitment (σ.ourIndex + 1)
                    (s + 1) = ext.g1Mul val
                case neg =>
                  have hres1 : (KeyGen.handleAckOrFault ext σ s a).1.parts =
                      alInsert a.proposerIndex ({ part with acks := insert s part.acks }) σ.parts := by
                    unfold KeyGen.handleAckOrFault
                    simp [h1, h2, hl, h3, hd, h4]
                  refine ⟨part, rfl, h3,
                    ({ part with acks := insert s part.acks }), ?_, rfl,
                    Finset.mem_insert_self _ _,
                    Finset.card_insert_of_not_mem h3, ?_⟩
                  · rw [hres1]
                    exact alLookup_alInsert_self _ _ _
                  · unfold ProposalState.is_complete
                    rw [Finset.card_insert_of_not_mem h3]
                case pos =>
                  cases hl2 : alLookup
                      (alInsert a.proposerIndex
                        ({ part with
                           acks := insert s part.acks
                           values := alInsert (s + 1) val part.values }) σ.parts) s with
                  | none =>
                      have hres : (KeyGen.handleAckOrFault ext σ s a).2 =
                          Except.error AcknowledgmentFault.missingPart := by
                        unfold KeyGen.handleAckOrFault
                        simp [h1, h2, hl, h3, hd, h4, hl2]
                      rw [hres] at herr
                      rcases herr with h | h <;> simp at h
                  | some sp =>
                      have hres : (KeyGen.handleAckOrFault ext σ s a).2 =
                          Except.ok () := by
                        unfold KeyGen.handleAckOrFault
                        simp [h1, h2, hl, h3, hd, h4, hl2]
                      rw [hres] at herr
                      rcases herr with h | h <;> simp at h

/-- Witness for C10 at a concrete state: a fresh acknowledgment whose scalar
fails to deserialize is attributed `DeserializeValue`, yet the sender stays
recorded in the proposer's ack set and completes the proposal. -/
theorem spec_c10_witness :
    (KeyGen.handleAckOrFault extNoVal kgC10 1
        { proposerIndex := 0, receiverIndex := 0, serVal := [], values := [[], []] }).2 =
      Except.error AcknowledgmentFault.deserializeValue ∧
    ∃ st, alLookup kgC10.parts 0 = some st ∧ 1 ∉ st.acks ∧
      ∃ st', alLookup (KeyGen.handleAckOrFault extNoVal kgC10 1
          { proposerIndex := 0, receiverIndex := 0, serVal := [],
            values := [[], []] }).1.parts 0 = some st' ∧
        st'.acks = insert 1 st.acks ∧ 1 ∈ st'.acks ∧
        st'.acks.card = st.acks.card + 1 ∧
        (st'.is_complete kgC10.threshold ↔ kgC10.threshold < st.acks.card + 1) := by
  constructor
  · decide
  · exact spec_c10 extNoVal kgC10 1
      { proposerIndex := 0, receiverIndex := 0, serVal := [], values := [[], []] }
      (Or.inl (by decide))

theorem finalizeContributing_spec {C F : Type} [DecidableEq C] (σ : KeyGen C F) :
    ∃ msgs, (KeyGen.finalizeContributingPhase σ).2 = Except.ok msgs ∧
      ((KeyGen.finalizeContributingPhase σ).1.phase = Phase.complaining ∨
       (KeyGen.finalizeContributingPhase σ).1.phase = Phase.finalization) := by
  refine ⟨_, rfl, ?_⟩
  unfold KeyGen.finalizeContributingPhase
  dsimp only
  split
  · right
    rfl
  · left
    rfl

theorem finalizeComplaining_spec {C RC F G Row BP : Type} [DecidableEq C]
    [DecidableEq RC] [DecidableEq G] (ext : ExtOps C RC F G Row BP) (bp : BP)
    (σ : KeyGen C F) :
    (∃ nv, (KeyGen.finalizeComplainingPhase ext bp σ).2 =
        Except.error (Error.tooManyNonVoters nv)) ∨
    (KeyGen.finalizeComplainingPhase ext bp σ).2 = Except.error Error.unknown ∨
    (KeyGen.finalizeComplainingPhase ext bp σ).2 = Except.error Error.encryption ∨
    (∃ msgs, (KeyGen.finalizeComplainingPhase ext bp σ).2 = Except.ok msgs ∧
      ((KeyGen.finalizeComplainingPhase ext bp σ).1.phase = Phase.commitment ∨
       (KeyGen.finalizeComplainingPhase ext bp σ).1.phase = Phase.finalization)) := by
  unfold KeyGen.finalizeComplainingPhase
  dsimp only
  split
  · exact Or.inl ⟨_, rfl⟩
  · split
    · split
      · exact Or.inr (Or.inl rfl)
      · unfold KeyGen.emitProposals
        split
        · exact Or.inr (Or.inr (Or.inl rfl))
        · exact Or.inr (Or.inr (Or.inr ⟨_, rfl, Or.inl rfl⟩))
    · split
      · exact Or.inr (Or.inr (Or.inr ⟨_, rfl, Or.inr rfl⟩))
      · unfold KeyGen.emitProposals
        split
        · exact Or.inr (Or.inr (Or.inl rfl))
        · exact Or.inr (Or.inr (Or.inr ⟨_, rfl, Or.inl rfl⟩))

/-- C7 (amended).  `timed_phase_transition` closes the `Contribution` phase
(invoking the contribution finalization, which always returns `Ok` and moves
to `Complaining` or directly to `Finalization`) and closes the `Complaining`
phase (invoking the complaining finalization, which moves to `Commitment` or
`Finalization`, or fails with `TooManyNonVoters`, or fails with `Unknown`
when the local index cannot be resolved after the faulty members were
removed — in particular when the local node itself is in the faulty set — or
fails with `Encryption` when the encryptor collaborator fails); in phase
`Initialization`, `Commitment` or `Justification` it returns
`Err(UnexpectedPhase)` and changes nothing; in `Finalization` it is a no-op
returning `Ok` with no messages. -/
theorem spec_c7 {C RC F G Row BP : Type} [DecidableEq C] [DecidableEq RC]
    [DecidableEq G] (ext : ExtOps C RC F G Row BP) (bp : BP) (σ : KeyGen C F) :
    (σ.phase = Phase.initialization ∨ σ.phase = Phase.commitment ∨
        σ.phase = Phase.justification →
      ∃ exp, KeyGen.timedPhaseTransition ext bp σ =
        (σ, Except.error (Error.unexpectedPhase exp σ.phase))) ∧
    (σ.phase = Phase.finalization →
      KeyGen.timedPhaseTransition ext bp σ = (σ, Except.ok [])) ∧
    (σ.phase = Phase.contribution →
      KeyGen.timedPhaseTransition ext bp σ = KeyGen.finalizeContributingPhase σ ∧
      ∃ msgs, (KeyGen.timedPhaseTransition ext bp σ).2 = Except.ok msgs ∧
        ((KeyGen.timedPhaseTransition ext bp σ).1.phase = Phase.complaining ∨
         (KeyGen.timedPhaseTransition ext bp σ).1.phase = Phase.finalization)) ∧
    (σ.phase = Phase.complaining →
      KeyGen.timedPhaseTransition ext bp σ =
        KeyGen.finalizeComplainingPhase ext bp σ ∧
      ((∃ nv, (KeyGen.timedPhaseTransition ext bp σ).2 =
          Except.error (Error.tooManyNonVoters nv)) ∨
       (KeyGen.timedPhaseTransition ext bp σ).2 = Except.error Error.unknown ∨
       (KeyGen.timedPhaseTransition ext bp σ).2 = Except.error Error.encryption ∨
       (∃ msgs, (KeyGen.timedPhaseTransition ext bp σ).2 = Except.ok msgs ∧
         ((KeyGen.timedPhaseTransition ext bp σ).1.phase = Phase.commitment ∨
          (KeyGen.timedPhaseTransition ext bp σ).1.phase = Phase.finalization)))) := by
  refine ⟨?_, ?_, ?_, ?_⟩
  · rintro (h | h | h)
    · exact ⟨Phase.contribution, by simp [KeyGen.timedPhaseTransition, h]⟩
    · exact ⟨Phase.complaining, by simp [KeyGen.timedPhaseTransition, h]⟩
    · exact ⟨Phase.complaining, by simp [KeyGen.timedPhaseTransition, h]⟩
  · intro h
    simp [KeyGen.timedPhaseTransition, h]
  · intro h
    have heq : KeyGen.timedPhaseTransition ext bp σ =
        KeyGen.finalizeContributingPhase σ := by
      unfold KeyGen.timedPhaseTransition
      rw [h]
    refine ⟨heq, ?_⟩
    rw [heq]
    exact finalizeContributing_spec σ
  · intro h
    have heq : KeyGen.timedPhaseTransition ext bp σ =
        KeyGen.finalizeComplainingPhase ext bp σ := by
      unfold KeyGen.timedPhaseTransition
      rw [h]
    refine ⟨heq, ?_⟩
    rw [heq]
    exact finalizeComplaining_spec ext bp σ

/-- Witness for C7 at concrete states: in `Finalization` the call is a no-op
returning no messages, and in `Justification` it fails with
`UnexpectedPhase` leaving the state unchanged. -/
theorem spec_c7_witness :
    KeyGen.timedPhaseTransition ext0 0 (kgFix Phase.finalization) =
      ((kgFix Phase.finalization), Except.ok []) ∧
    ∃ exp, KeyGen.timedPhaseTransition ext0 0 (kgFix Phase.justification) =
      ((kgFix Phase.justification),
        Except.error (Error.unexpectedPhase exp Phase.justification)) := by
  constructor
  · exact (spec_c7 ext0 0 (kgFix Phase.finalization)).2.1 rfl
  · exact (spec_c7 ext0 0 (kgFix Phase.justification)).1 (Or.inr (Or.inr rfl))

/-- Counterexample to C7 as stated: closing the `Complaining` phase can also
fail with `Unknown` — here every member accused the local node, the faulty
set `{0}` is small enough to pass the `TooManyNonVoters` check, the local
node is removed from the membership, and its index can no longer be
resolved.  The claim lists only `TooManyNonVoters` as the failure mode. -/
theorem spec_c7_cex :
    (KeyGen.timedPhaseTransition ext0 0 kgC7).2 = Except.error Error.unknown := by
  decide

theorem handleAckOrFault_fields {C RC F G Row BP : Type} [DecidableEq C]
    [DecidableEq RC] [DecidableEq G] (ext : ExtOps C RC F G Row BP)
    (σ : KeyGen C F) (s : Nat) (a : Acknowledgment) :
    (KeyGen.handleAckOrFault ext σ s a).1.phase = σ.phase ∧
    (KeyGen.handleAckOrFault ext σ s a).1.pubKeys = σ.pubKeys ∧
    (KeyGen.handleAckOrFault ext σ s a).1.ourIndex = σ.ourIndex := by
  unfold KeyGen.handleAckOrFault
  dsimp only
  repeat' split
  all_goals exact ⟨rfl, rfl, rfl⟩

theorem handleProposal_dup {C RC F G Row BP : Type} [DecidableEq C]
    [DecidableEq RC] [DecidableEq G] (ext : ExtOps C RC F G Row BP)
    (σ1 : KeyGen C F) (s : Nat) (part : Part C)
    (hph : σ1.phase = Phase.contribution ∨ σ1.phase = Phase.commitment)
    (hlen : part.encRows.length = σ1.pubKeys.card)
    (hcm : ∀ st, alLookup σ1.parts s = some st → st.commitment = part.commitment)
    (hins : part.receiver = σ1.ourIndex → ∃ st, alLookup σ1.parts s = some st) :
    KeyGen.handleProposal ext σ1 s part = (σ1, Except.ok []) := by
  have hguard : ¬¬(σ1.phase = Phase.contribution ∨ σ1.phase = Phase.commitment) :=
    not_not_intro hph
  by_cases hrec : part.receiver = σ1.ourIndex
  · obtain ⟨st, hl⟩ := hins hrec
    have hpf : KeyGen.handlePartOrFault ext σ1 s part = (σ1, Except.ok none) := by
      unfold KeyGen.handlePartOrFault
      simp [hlen, hrec, hl, hcm st hl]
    unfold KeyGen.handleProposal
    rw [if_neg hguard, hpf]
  · have hpf : KeyGen.handlePartOrFault ext σ1 s part = (σ1, Except.ok none) := by
      unfold KeyGen.handlePartOrFault
      simp [hlen, hrec]
    unfold KeyGen.handleProposal
    rw [if_neg hguard, hpf]

theorem handleAck_dup {C RC F G Row BP : Type} [DecidableEq C]
    [DecidableEq RC] [DecidableEq G] (ext : ExtOps C RC F G Row BP)
    (σ1 : KeyGen C F) (s : Nat) (a : Acknowledgment)
    (hph : σ1.phase = Phase.contribution ∨ σ1.phase = Phase.commitment)
    (hok : KeyGen.handleAckOrFault ext σ1 s a = (σ1, Except.ok ()))
    (hnc : ¬KeyGen.allContributionReceived σ1) :
    KeyGen.handleAck ext σ1 s a = (σ1, Except.ok []) := by
  unfold KeyGen.handleAck
  rw [if_neg (not_not_intro hph), hok]
  dsimp only
  rw [if_neg hnc]

theorem handleAckOrFault_dup {C RC F G Row BP : Type} [DecidableEq C]
    [DecidableEq RC] [DecidableEq G] (ext : ExtOps C RC F G Row BP)
    (σ : KeyGen C F) (s : Nat) (a : Acknowledgment)
    (hok : (KeyGen.handleAckOrFault ext σ s a).2 = Except.ok ()) :
    KeyGen.handleAckOrFault ext ((KeyGen.handleAckOrFault ext σ s a).1) s a =
      ((KeyGen.handleAckOrFault ext σ s a).1, Except.ok ()) := by
  by_cases h1 : a.values.length = σ.pubKeys.card
  case neg =>
    exfalso
    unfold KeyGen.handleAckOrFault at hok
    simp [h1] at hok
  case pos =>
    by_cases h2 : a.receiverIndex = σ.ourIndex
    case neg =>
      have hres : KeyGen.handleAckOrFault ext σ s a = (σ, Except.ok ()) := by
        unfold KeyGen.handleAckOrFault
        simp [h1, h2]
      rw [hres]
      exact hres
    case pos =>
      cases hl : alLookup σ.parts a.proposerIndex with
      | none =>
          exfalso
          unfold KeyGen.handleAckOrFault at hok
          simp [h1, h2, hl] at hok
      | some p0 =>
          by_cases h3 : s ∈ p0.acks
          case pos =>
            have hres : KeyGen.handleAckOrFault ext σ s a = (σ, Except.ok ()) := by
              unfold KeyGen.handleAckOrFault
              simp [h1, h2, hl, h3]
            rw [hres]
            exact hres
          case neg =>
            cases hd : ext.deserializeVal a.serVal with
            | none =>
                exfalso
                unfold KeyGen.handleAckOrFault at hok
                simp [h1, h2, hl, h3, hd] at hok
            | some val =>
                by_cases h4 : ext.commitmentEval p0.commitment (σ.ourIndex + 1)
                    (s + 1) = ext.g1Mul val
                case neg =>
                  exfalso
                  unfold KeyGen.handleAckOrFault at hok
                  simp [h1, h2, hl, h3, hd, h4] at hok
                case pos =>
                  cases hl2 : alLookup (alInsert a.proposerIndex
                      ({ p0 with
                         acks := insert s p0.acks
                         values := alInsert (s + 1) val p0.values }) σ.parts) s with
                  | none =>
                      exfalso
                      unfold KeyGen.handleAckOrFault at hok
                      simp [h1, h2, hl, h3, hd, h4, hl2] at hok
                  | some sp =>
                      have hres1 : (KeyGen.handleAckOrFault ext σ s a).1.parts =
                          alInsert s ({ sp with encValues := a.values })
                            (alInsert a.proposerIndex
                              ({ p0 with
                                 acks := insert s p0.acks
                                 values := alInsert (s + 1) val p0.values }) σ.parts) := by
                        unfold KeyGen.handleAckOrFault
                        simp [h1, h2, hl, h3, hd, h4, hl2]
                      have hres2 : (KeyGen.handleAckOrFault ext σ s a).2 =
                          Except.ok () := hok
                      have hl1 : ∃ pX,
                          alLookup (KeyGen.handleAckOrFault ext σ s a).1.parts
                            a.proposerIndex = some pX ∧ s ∈ pX.acks := by
                        rw [hres1]
                        by_cases hsp : a.proposerIndex = s
                        · rw [hsp]
                          refine ⟨{ sp with encValues := a.values },
                            alLookup_alInsert_self _ _ _, ?_⟩
                          rw [hsp] at hl2
                          rw [alLookup_alInsert_self] at hl2
                          have hsp2 : ({ p0 with
                              acks := insert s p0.acks
                              values := alInsert (s + 1) val p0.values } :
                                ProposalState C F) = sp :=
                            (Option.some.injEq _ _).mp hl2
                          rw [← hsp2]
                          exact Finset.mem_insert_self _ _
                        · refine ⟨{ p0 with
                              acks := insert s p0.acks
                              values := alInsert (s + 1) val p0.values }, ?_,
                            Finset.mem_insert_self _ _⟩
                          rw [alLookup_alInsert_of_ne _ _ hsp]
                          exact alLookup_alInsert_self _ _ _
                      obtain ⟨pX, hlX, hmemX⟩ := hl1
                      have hfields := handleAckOrFault_fields ext σ s a
                      have hv1 : ¬(a.values.length ≠
                          (KeyGen.handleAckOrFault ext σ s a).1.pubKeys.card) := by
                        rw [hfields.2.1, h1]
                        simp
                      have hv2 : ¬(a.receiverIndex ≠
                          (KeyGen.handleAckOrFault ext σ s a).1.ourIndex) := by
                        rw [hfields.2.2, h2]
                        simp
                      set T := (KeyGen.handleAckOrFault ext σ s a).1 with hT
                      unfold KeyGen.handleAckOrFault
                      rw [if_neg hv1, if_neg hv2, hlX]
                      dsimp only
                      rw [if_pos hmemX]

/-- C5 (amended).  In phase `Contribution` or `Commitment`: delivering the
same `Proposal` twice leaves the state exactly as after one delivery (and the
repeat emits nothing) provided the proposal's row count matches the member
count and any commitment already recorded for the sender equals its
commitment; delivering the same `Acknowledgment` twice leaves the state as
after one delivery provided the first delivery was accepted without fault;
and a second `Proposal` from the same sender addressed to us with correct row
count and a different commitment yields a `MultipleParts` fault and queues
exactly one pending complaint against the sender.  (Messages that fault
before the duplicate check instead append one pending complaint per
delivery.) -/
theorem spec_c5 {C RC F G Row BP : Type} [DecidableEq C] [DecidableEq RC]
    [DecidableEq G] (ext : ExtOps C RC F G Row BP) (σ : KeyGen C F)
    (s : Nat) (part : Part C) (a : Acknowledgment) :
    (σ.phase = Phase.contribution ∨ σ.phase = Phase.commitment →
      part.encRows.length = σ.pubKeys.card →
      (∀ st, alLookup σ.parts s = some st → st.commitment = part.commitment) →
      (KeyGen.handleProposal ext (KeyGen.handleProposal ext σ s part).1 s part).1 =
        (KeyGen.handleProposal ext σ s part).1 ∧
      (KeyGen.handleProposal ext (KeyGen.handleProposal ext σ s part).1 s part).2 =
        Except.ok []) ∧
    (σ.phase = Phase.contribution ∨ σ.phase = Phase.commitment →
      (KeyGen.handleAckOrFault ext σ s a).2 = Except.ok () →
      (KeyGen.handleAck ext (KeyGen.handleAck ext σ s a).1 s a).1 =
        (KeyGen.handleAck ext σ s a).1) ∧
    (∀ st, σ.phase = Phase.contribution ∨ σ.phase = Phase.commitment →
      part.encRows.length = σ.pubKeys.card →
      part.receiver = σ.ourIndex →
      alLookup σ.parts s = some st →
      st.commitment ≠ part.commitment →
      (KeyGen.handlePartOrFault ext σ s part).2 =
        Except.error PartFault.multipleParts ∧
      (KeyGen.handleProposal ext σ s part).1 =
        { σ with pendingComplainMessages :=
            σ.pendingComplainMessages ++
              [Message.complaint σ.ourIndex s
                (ext.serializeMsg (Message.proposal s part))] }) := by
  refine ⟨?_, ?_, ?_⟩
  · -- duplicate Proposal idempotence
    intro hph hlen hcm
    have hguard : ¬¬(σ.phase = Phase.contribution ∨ σ.phase = Phase.commitment) :=
      not_not_intro hph
    by_cases hrec : part.receiver = σ.ourIndex
    · cases hl : alLookup σ.parts s with
      | some st =>
          have hone : KeyGen.handleProposal ext σ s part = (σ, Except.ok []) :=
            handleProposal_dup ext σ s part hph hlen hcm (fun _ => ⟨st, hl⟩)
          rw [hone]
          have htwo : KeyGen.handleProposal ext σ s part = (σ, Except.ok []) := hone
          rw [htwo]
          exact ⟨rfl, rfl⟩
      | none =>
          -- the first delivery records the sender's commitment (whatever else
          -- it does), after which the repeat is accepted as a duplicate
          have hpff : (KeyGen.handlePartOrFault ext σ s part).1.phase = σ.phase ∧
              (KeyGen.handlePartOrFault ext σ s part).1.pubKeys = σ.pubKeys ∧
              (KeyGen.handlePartOrFault ext σ s part).1.ourIndex = σ.ourIndex := by
            unfold KeyGen.handlePartOrFault
            dsimp only
            repeat' split
            all_goals exact ⟨rfl, rfl, rfl⟩
          have hpf1 : (KeyGen.handlePartOrFault ext σ s part).1.parts =
              alInsert s (ProposalState.new part.commitment) σ.parts := by
            unfold KeyGen.handlePartOrFault
            rw [if_neg (by rw [hlen]; simp : ¬part.encRows.length ≠ σ.pubKeys.card)]
            rw [if_neg (not_not_intro hrec)]
            rw [hl]
            dsimp only
            cases hd : ext.deserializeRow part.serRow with
            | none => rfl
            | some row =>
                dsimp only
                by_cases hrc : ext.rowCommitment row ≠
                    ext.commitmentRow part.commitment (σ.ourIndex + 1)
                · rw [if_pos hrc]
                · rw [if_neg hrc]
          have hσ1 : (KeyGen.handleProposal ext σ s part).1.phase = σ.phase ∧
              (KeyGen.handleProposal ext σ s part).1.pubKeys = σ.pubKeys ∧
              (KeyGen.handleProposal ext σ s part).1.ourIndex = σ.ourIndex ∧
              (KeyGen.handleProposal ext σ s part).1.parts =
                (KeyGen.handlePartOrFault ext σ s part).1.parts := by
            unfold KeyGen.handleProposal
            rw [if_neg hguard]
            rcases hP : KeyGen.handlePartOrFault ext σ s part with ⟨σp, r⟩
            rw [hP] at hpff
            cases r with
            | error f =>
                dsimp only
                exact ⟨hpff.1, hpff.2.1, hpff.2.2, rfl⟩
            | ok o =>
                cases o with
                | none =>
                    dsimp only
                    exact ⟨hpff.1, hpff.2.1, hpff.2.2, rfl⟩
                | some row =>
                    dsimp only
                    cases hcv : KeyGen.collectAckValues ext row
                        (KeyGen.members σp).enum with
                    | none =>
                        dsimp only
                        exact ⟨hpff.1, hpff.2.1, hpff.2.2, rfl⟩
                    | some vs =>
                        dsimp only
                        exact ⟨hpff.1, hpff.2.1, hpff.2.2, rfl⟩
          have hlook : alLookup (KeyGen.handleProposal ext σ s part).1.parts s =
              some (ProposalState.new part.commitment) := by
            rw [hσ1.2.2.2, hpf1]
            exact alLookup_alInsert_self _ _ _
          have hdup := handleProposal_dup ext (KeyGen.handleProposal ext σ s part).1
            s part (by rw [hσ1.1]; exact hph)
            (by rw [hσ1.2.1]; exact hlen)
            (by
              intro st hst
              rw [hlook] at hst
              have h5 := (Option.some.injEq _ _).mp hst
              rw [← h5]
              rfl)
            (fun _ => ⟨ProposalState.new part.commitment, hlook⟩)
          rw [hdup]
          exact ⟨rfl, rfl⟩
    · have hone : KeyGen.handleProposal ext σ s part = (σ, Except.ok []) :=
        handleProposal_dup ext σ s part hph hlen hcm (fun h => absurd h hrec)
      rw [hone, hone]
      exact ⟨rfl, rfl⟩
  · -- duplicate Acknowledgment idempotence
    intro hph hok
    have hpair : KeyGen.handleAckOrFault ext σ s a =
        ((KeyGen.handleAckOrFault ext σ s a).1, Except.ok ()) := by
      rw [← hok]
    have hone : KeyGen.handleAck ext σ s a =
        (if KeyGen.allContributionReceived (KeyGen.handleAckOrFault ext σ s a).1 then
          (if (KeyGen.handleAckOrFault ext σ s a).1.phase = Phase.commitment then
            ({ (KeyGen.handleAckOrFault ext σ s a).1 with phase := Phase.finalization },
             Except.ok [])
          else KeyGen.finalizeContributingPhase (KeyGen.handleAckOrFault ext σ s a).1)
        else ((KeyGen.handleAckOrFault ext σ s a).1, Except.ok [])) := by
      unfold KeyGen.handleAck
      rw [if_neg (not_not_intro hph), hpair]
    by_cases hC : KeyGen.allContributionReceived (KeyGen.handleAckOrFault ext σ s a).1
    · by_cases hCm : (KeyGen.handleAckOrFault ext σ s a).1.phase = Phase.commitment
      · rw [hone, if_pos hC, if_pos hCm]
        have hguard2 : ¬(({ (KeyGen.handleAckOrFault ext σ s a).1 with
            phase := Phase.finalization } : KeyGen C F).phase = Phase.contribution ∨
            ({ (KeyGen.handleAckOrFault ext σ s a).1 with
              phase := Phase.finalization } : KeyGen C F).phase = Phase.commitment) := by
          simp
        unfold KeyGen.handleAck
        rw [if_pos hguard2]
      · rw [hone, if_pos hC, if_neg hCm]
        obtain ⟨_, _, hphase⟩ :=
          finalizeContributing_spec (KeyGen.handleAckOrFault ext σ s a).1
        have hguard2 : ¬((KeyGen.finalizeContributingPhase
            (KeyGen.handleAckOrFault ext σ s a).1).1.phase = Phase.contribution ∨
            (KeyGen.finalizeContributingPhase
              (KeyGen.handleAckOrFault ext σ s a).1).1.phase = Phase.commitment) := by
          rcases hphase with hp | hp <;> rw [hp] <;> simp
        unfold KeyGen.handleAck
        rw [if_pos hguard2]
    · rw [hone, if_neg hC]
      have hfields := handleAckOrFault_fields ext σ s a
      have hdup := handleAck_dup ext (KeyGen.handleAckOrFault ext σ s a).1 s a
        (by rw [hfields.1]; exact hph)
        (handleAckOrFault_dup ext σ s a hok) hC
      rw [hdup]
  · -- conflicting second Proposal
    intro st hph hlen hrec hl hne
    have hguard : ¬¬(σ.phase = Phase.contribution ∨ σ.phase = Phase.commitment) :=
      not_not_intro hph
    have hpf : KeyGen.handlePartOrFault ext σ s part =
        (σ, Except.error PartFault.multipleParts) := by
      unfold KeyGen.handlePartOrFault
      simp [hlen, hrec, hl, hne]
    refine ⟨by rw [hpf], ?_⟩
    unfold KeyGen.handleProposal
    rw [if_neg hguard, hpf]

/-- Witness for C5 at concrete inputs: a duplicated well-formed `Proposal`
not addressed to us and a duplicated well-formed `Acknowledgment` not
addressed to us change nothing on repeat, and a second `Proposal` from
sender `1` addressed to us whose commitment `7` differs from the recorded
`5` is attributed `MultipleParts`. -/
theorem spec_c5_witness :
    ((KeyGen.handleProposal ext0 (KeyGen.handleProposal ext0
        (kgFix Phase.contribution) 1
        { receiver := 1, commitment := 0, serRow := [], encRows := [[], []] }).1 1
        { receiver := 1, commitment := 0, serRow := [], encRows := [[], []] }).1 =
      (KeyGen.handleProposal ext0 (kgFix Phase.contribution) 1
        { receiver := 1, commitment := 0, serRow := [], encRows := [[], []] }).1) ∧
    ((KeyGen.handleAck ext0 (KeyGen.handleAck ext0 (kgFix Phase.contribution) 1
        { proposerIndex := 0, receiverIndex := 1, serVal := [], values := [[], []] }).1 1
        { proposerIndex := 0, receiverIndex := 1, serVal := [], values := [[], []] }).1 =
      (KeyGen.handleAck ext0 (kgFix Phase.contribution) 1
        { proposerIndex := 0, receiverIndex := 1, serVal := [], values := [[], []] }).1) ∧
    (KeyGen.handlePartOrFault ext0 kgC5 1
        { receiver := 0, commitment := 7, serRow := [], encRows := [[], []] }).2 =
      Except.error PartFault.multipleParts := by
  refine ⟨?_, ?_, ?_⟩
  · exact ((spec_c5 ext0 (kgFix Phase.contribution) 1
      { receiver := 1, commitment := 0, serRow := [], encRows := [[], []] }
      { proposerIndex := 0, receiverIndex := 1, serVal := [], values := [[], []] }).1
      (Or.inl rfl) (by decide) (fun st h => nomatch h)).1
  · exact (spec_c5 ext0 (kgFix Phase.contribution) 1
      { receiver := 1, commitment := 0, serRow := [], encRows := [[], []] }
      { proposerIndex := 0, receiverIndex := 1, serVal := [], values := [[], []] }).2.1
      (Or.inl rfl) (by decide)
  · exact ((spec_c5 ext0 kgC5 1
      { receiver := 0, commitment := 7, serRow := [], encRows := [[], []] }
      { proposerIndex := 0, receiverIndex := 1, serVal := [], values := [[], []] }).2.2
      { commitment := 5, values := [], encValues := [], acks := ∅ }
      (Or.inl rfl) (by decide) (by decide) (by decide) (by decide)).1

/-- Counterexample to C5 as stated: an `Acknowledgment` with the wrong value
count faults before the duplicate check, so each delivery queues a fresh
pending complaint — after delivering the same message twice the queue holds
two complaints, not one. -/
theorem spec_c5_cex :
    ((KeyGen.handleAck ext0 (KeyGen.handleAck ext0 (kgFix Phase.contribution) 1
        { proposerIndex := 0, receiverIndex := 0, serVal := [], values := [] }).1 1
        { proposerIndex := 0, receiverIndex := 0, serVal := [],
          values := [] }).1).pendingComplainMessages.length = 2 ∧
    ((KeyGen.handleAck ext0 (kgFix Phase.contribution) 1
        { proposerIndex := 0, receiverIndex := 0, serVal := [],
          values := [] }).1).pendingComplainMessages.length = 1 := by
  constructor
  · decide
  · decide

end BlsDkg
